import Mathlib

/-!
Verification of the rdfsolve client-side diagram engine.

Shallow embedding of the JavaScript sources `docs/ls_cloud.js` and
`docs/d3_diagram_utils.js`: coverage-row ingestion into a multi-graph
(`buildGraphData`), URI exclusion (`isExcludedUri` / `isExcludedNode`),
edge-offset assignment (`assignEdgeOffsets`), the `DiagramState` path
container, breadth-first shortest path (`findPath`), bounded depth-first
all-paths search (`findAllPaths`), node-path expansion
(`expandPathToEdgePaths`) and the federated SPARQL compiler
(`generateSparqlFromPaths`).

JavaScript `Map` and `Set` values are modelled as insertion-ordered
association lists and duplicate-free lists, which matches the iteration
order guarantees of the originals.  JavaScript string falsiness (`x || y`)
is modelled by `strOr`.
-/

namespace RdfSolve

/-- JS `a || b` for strings: the empty string is falsy. -/
def strOr (a b : String) : String := if a = "" then b else a

/-- JS `s.startsWith(pre)`, computed on the character lists. -/
def strStartsWith (s pre : String) : Bool := pre.data.isPrefixOf s.data

/-- Split a character list at every separator character (JS `String.split`). -/
def splitChars (p : Char → Bool) : List Char → List Char → List (List Char)
  | acc, [] => [acc.reverse]
  | acc, c :: rest =>
    if p c then acc.reverse :: splitChars p [] rest
    else splitChars p (c :: acc) rest

/-- JS `s.split(sep)` for single-character separator classes. -/
def strSplit (s : String) (p : Char → Bool) : List String :=
  (splitChars p [] s.data).map String.mk

/-- Lexicographic comparison of character lists by code point. -/
def charListLe : List Char → List Char → Bool
  | [], _ => true
  | _ :: _, [] => false
  | a :: as, b :: bs =>
    if a.toNat < b.toNat then true
    else if b.toNat < a.toNat then false
    else charListLe as bs

/-- JS string comparison `s <= t` (lexicographic, as used by `Array.sort()`). -/
def strLe (s t : String) : Bool := charListLe s.data t.data

/-- Insertion into a JS `Set` of strings: keeps first-insertion order, no duplicates. -/
def setAdd (l : List String) (x : String) : List String :=
  if l.contains x then l else l ++ [x]

/-- Lookup in an insertion-ordered association list (JS `Map.get`). -/
def alookup {α : Type} (l : List (String × α)) (k : String) : Option α :=
  (l.find? (fun p => p.1 == k)).map (·.2)

/-- JS `Map.has`. -/
def acontains {α : Type} (l : List (String × α)) (k : String) : Bool :=
  (alookup l k).isSome

/-- JS `Map.set`: updates the value in place if the key exists, else appends. -/
def aset {α : Type} (l : List (String × α)) (k : String) (v : α) : List (String × α) :=
  if acontains l k then l.map (fun p => if p.1 = k then (k, v) else p)
  else l ++ [(k, v)]

/-- Update the value stored at a key, leaving the list unchanged if absent. -/
def aupdate {α : Type} (l : List (String × α)) (k : String) (f : α → α) :
    List (String × α) :=
  l.map (fun p => if p.1 = k then (p.1, f p.2) else p)

/-! ## Coverage rows (`mergedData` entries consumed by `buildGraphData`) -/

/-- One coverage row as consumed by `buildGraphData` in `ls_cloud.js`. -/
structure Row where
  subject_uri : String
  subject_class : String
  object_uri : String
  object_class : String
  property_uri : String
  property : String
  source_dataset : String
deriving Repr, DecidableEq

/-! ## URI exclusion (`d3_diagram_utils.js` lines 95-105, `ls_cloud.js` lines 1147-1171) -/

/-- The `excludedNamespaces` constant shared by both files. -/
def excludedNamespaces : List String :=
  [ "http://www.w3.org/1999/02/22-rdf-syntax-ns#"
  , "http://www.w3.org/2000/01/rdf-schema#"
  , "http://www.w3.org/2002/07/owl#"
  , "http://www.w3.org/ns/shacl#"
  , "http://www.w3.org/2001/XMLSchema#" ]

/-- The `excludedLocalNames` constant shared by both files. -/
def excludedLocalNames : List String :=
  [ "Resource", "Class", "Literal", "Property", "Thing"
  , "NamedIndividual", "Ontology", "ObjectProperty", "DatatypeProperty"
  , "AnnotationProperty", "TransitiveProperty", "SymmetricProperty"
  , "FunctionalProperty", "InverseFunctionalProperty", "Restriction"
  , "AllDifferent", "AllDisjointClasses", "AllDisjointProperties" ]

/-- The `excludedPrefixes` constant of `LsCloud` (constructor, `ls_cloud.js` lines 56-63). -/
def excludedPrefixes : List String :=
  ["rdf", "rdfs", "owl", "sh", "sparqlserv", "foaf"]

/-- JS `uri.split(/[#\/]/).pop()`: the segment after the last `#` or `/`. -/
def localNameOf (uri : String) : String :=
  ((strSplit uri (fun c => c = '#' ∨ c = '/')).getLast?).getD ""

/-- `D3DiagramUtils.isExcludedUri(uri, excludeOwl)` (`d3_diagram_utils.js` 95-105).
The empty string models a missing/empty `uri` (JS falsy check `!uri`). -/
def isExcludedUri (uri : String) (excludeOwl : Bool) : Bool :=
  if uri = "" then true
  else if !excludeOwl then false
  else if excludedNamespaces.any (fun ns => strStartsWith uri ns) then true
  else if excludedLocalNames.contains (localNameOf uri) then true
  else false

/-- `LsCloud.isExcludedNode(uri)` (`ls_cloud.js` 1147-1171); the DOM checkbox
`#ls-exclude-owl` is passed in as `enabled`. -/
def isExcludedNode (enabled : Bool) (uri : String) : Bool :=
  if uri = "" then true
  else if !enabled then false
  else if excludedNamespaces.any (fun ns => strStartsWith uri ns) then true
  else if excludedPrefixes.any (fun p => strStartsWith uri (p ++ ":")) then true
  else if excludedLocalNames.contains (localNameOf uri) then true
  else false

/-! ## Percent decoding (`decodeURIComponent`), used by `getLocalName` -/

/-- Hex digit value, if any. -/
def hexVal (c : Char) : Option Nat :=
  if '0' ≤ c ∧ c ≤ '9' then some (c.toNat - '0'.toNat)
  else if 'a' ≤ c ∧ c ≤ 'f' then some (c.toNat - 'a'.toNat + 10)
  else if 'A' ≤ c ∧ c ≤ 'F' then some (c.toNat - 'A'.toNat + 10)
  else none

/-- UTF-8 byte list of a single character. -/
def charBytes (c : Char) : List UInt8 :=
  (String.toUTF8 (String.singleton c)).toList

/-- Decode `%hh` escapes to raw bytes, keeping other characters' UTF-8 bytes.
`none` models the `URIError` that `decodeURIComponent` throws on bad escapes. -/
def percentBytes : List Char → Option (List UInt8)
  | [] => some []
  | '%' :: a :: b :: rest =>
    match hexVal a, hexVal b with
    | some x, some y => (percentBytes rest).map (fun bs => UInt8.ofNat (16 * x + y) :: bs)
    | _, _ => none
  | '%' :: _ => none
  | c :: rest => (percentBytes rest).map (fun bs => charBytes c ++ bs)

/-- Model of JS `decodeURIComponent`: percent-decode then UTF-8 validate. -/
def decodeUriComponent (s : String) : Option String :=
  match percentBytes s.data with
  | none => none
  | some bs => String.fromUTF8? ⟨Array.mk bs⟩

/-- `LsCloud.getLocalName(uri)` (`ls_cloud.js` 1366-1371): local name,
percent-decoded when possible, truncated to 20 characters. -/
def getLocalName (uri : String) : String :=
  if uri = "" then "Unknown"
  else
    let seg := localNameOf uri
    match decodeUriComponent seg with
    | some s => s.take 20
    | none => seg.take 20

/-! ## Graph building (`LsCloud.buildGraphData`, `ls_cloud.js` 1175-1263) -/

/-- A node while being accumulated in `nodeMap` (datasets/properties are JS Sets). -/
structure GNode where
  id : String
  label : String
  datasets : List String
  properties : List String
  inDegree : Nat
  outDegree : Nat
deriving Repr, DecidableEq

/-- A finalized node of the returned graph (`degree` added, `properties` capped to 4). -/
structure GNodeOut where
  id : String
  label : String
  datasets : List String
  properties : List String
  inDegree : Nat
  outDegree : Nat
  degree : Nat
deriving Repr, DecidableEq

/-- An edge of the multi-graph; identity is the (source, property, target) triple. -/
structure Link where
  source : String
  target : String
  property : String
  label : String
  datasets : List String
deriving Repr, DecidableEq

/-- The value object returned by `buildGraphData`. -/
structure GraphData where
  nodes : List GNodeOut
  links : List Link
deriving Repr, DecidableEq

/-- Effective subject URI: `row.subject_uri || row.subject_class || 'Unknown'`. -/
def effSubjectUri (row : Row) : String :=
  strOr (strOr row.subject_uri row.subject_class) "Unknown"

/-- Effective object URI: `row.object_uri || row.object_class || 'Unknown'`. -/
def effObjectUri (row : Row) : String :=
  strOr (strOr row.object_uri row.object_class) "Unknown"

/-- Effective property URI: `row.property_uri || row.property || 'unknown'`. -/
def effPropertyUri (row : Row) : String :=
  strOr (strOr row.property_uri row.property) "unknown"

/-- The link-map key `subjectUri|||propertyUri|||objectUri` (`ls_cloud.js` 1231). -/
def linkKey (s p o : String) : String := s ++ "|||" ++ p ++ "|||" ++ o

/-- State threaded through the `patterns.forEach` loop of `buildGraphData`. -/
structure BuildState where
  nodeMap : List (String × GNode)
  linkMap : List (String × Link)
deriving Repr

/-- Upsert of one endpoint node (the two symmetric `if (!…Excluded)` blocks). -/
def upsertNode (m : List (String × GNode)) (uri label propertyLabel dataset : String) :
    List (String × GNode) :=
  let m :=
    if acontains m uri then m
    else aset m uri
      { id := uri, label := label, datasets := [], properties := []
      , inDegree := 0, outDegree := 0 }
  aupdate m uri (fun n =>
    { n with datasets := setAdd n.datasets dataset
           , properties := setAdd n.properties propertyLabel })

/-- Processing of one coverage row (body of the `patterns.forEach` callback). -/
def buildGraphStep (enabled : Bool) (st : BuildState) (row : Row) : BuildState :=
  let subjectUri := effSubjectUri row
  let objectUri := effObjectUri row
  let propertyUri := effPropertyUri row
  let subjectLabel := strOr row.subject_class (getLocalName subjectUri)
  let objectLabel := strOr row.object_class (getLocalName objectUri)
  let propertyLabel := strOr row.property (getLocalName propertyUri)
  let dataset := row.source_dataset
  let subjectExcluded := isExcludedNode enabled subjectUri
  let objectExcluded := isExcludedNode enabled objectUri
  let nodeMap := st.nodeMap
  let nodeMap :=
    if subjectExcluded then nodeMap
    else upsertNode nodeMap subjectUri subjectLabel propertyLabel dataset
  let nodeMap :=
    if objectExcluded then nodeMap
    else upsertNode nodeMap objectUri objectLabel propertyLabel dataset
  if ¬subjectExcluded ∧ ¬objectExcluded ∧ subjectUri ≠ objectUri then
    let key := linkKey subjectUri propertyUri objectUri
    let linkMap :=
      if acontains st.linkMap key then st.linkMap
      else aset st.linkMap key
        { source := subjectUri, target := objectUri, property := propertyUri
        , label := propertyLabel, datasets := [] }
    let linkMap := aupdate linkMap key (fun l =>
      { l with datasets := setAdd l.datasets dataset })
    let nodeMap := aupdate nodeMap subjectUri (fun n =>
      { n with outDegree := n.outDegree + 1 })
    let nodeMap := aupdate nodeMap objectUri (fun n =>
      { n with inDegree := n.inDegree + 1 })
    { nodeMap := nodeMap, linkMap := linkMap }
  else
    { st with nodeMap := nodeMap }

/-- `LsCloud.buildGraphData()` run over `mergedData` (the `maxPatterns` parameter
is unused by the loop itself in the source). -/
def buildGraphData (enabled : Bool) (rows : List Row) : GraphData :=
  let st := rows.foldl (buildGraphStep enabled) { nodeMap := [], linkMap := [] }
  { nodes := st.nodeMap.map (fun p =>
      { id := p.2.id, label := p.2.label, datasets := p.2.datasets
      , properties := p.2.properties.take 4
      , inDegree := p.2.inDegree, outDegree := p.2.outDegree
      , degree := p.2.inDegree + p.2.outDegree })
  , links := st.linkMap.map (fun p => p.2) }

/-! ## Edge offsets (`D3DiagramUtils.assignEdgeOffsets`, `d3_diagram_utils.js` 366-390) -/

/-- The unordered node-pair key `[s, t].sort().join('|||')`. -/
def pairKey (s t : String) : String :=
  if strLe s t then s ++ "|||" ++ t else t ++ "|||" ++ s

/-- The grouping key of a link. -/
def linkPairKey (l : Link) : String := pairKey l.source l.target

/-- A link together with the three fields that `assignEdgeOffsets` mutates onto it. -/
structure OffsetLink where
  link : Link
  edgeOffset : Int
  edgeIndex : Nat
  edgeCount : Nat
deriving Repr, DecidableEq

/-- The `pairMap` building loop; links are tagged with their original position,
which stands in for JavaScript object identity. -/
def buildPairMap (m : List (String × List (Nat × Link))) (i : Nat) :
    List Link → List (String × List (Nat × Link))
  | [] => m
  | l :: rest =>
    let key := linkPairKey l
    let m := if acontains m key then m else aset m key []
    let m := aupdate m key (fun g => g ++ [(i, l)])
    buildPairMap m (i + 1) rest

/-- Offset data assigned to the member at position `j` of a group of size `count`:
`(edgeOffset, edgeIndex, edgeCount)` keyed by the link's original position. -/
def annotateGroup (count : Nat) (j : Nat) :
    List (Nat × Link) → List (Nat × (Int × Nat × Nat))
  | [] => []
  | il :: rest =>
    (il.1, ((j : Int) - ((count / 2 : Nat) : Int), j, count)) :: annotateGroup count (j + 1) rest

/-- Rebuild the links list with the assignment each link received (the source
mutates the shared link objects; positions recover object identity). -/
def applyAssignments (assignments : List (Nat × (Int × Nat × Nat))) (i : Nat) :
    List Link → List OffsetLink
  | [] => []
  | l :: rest =>
    (match (assignments.find? (fun a => a.1 == i)).map (·.2) with
     | some (off, idx, cnt) =>
       { link := l, edgeOffset := off, edgeIndex := idx, edgeCount := cnt }
     | none => { link := l, edgeOffset := 0, edgeIndex := 0, edgeCount := 0 }) ::
    applyAssignments assignments (i + 1) rest

/-- `D3DiagramUtils.assignEdgeOffsets(links)`: group by unordered pair key, then
assign `edgeIndex = 0..n-1` and `edgeOffset = edgeIndex - floor(n/2)` per group. -/
def assignEdgeOffsets (links : List Link) : List OffsetLink :=
  let pm := buildPairMap [] 0 links
  let assignments := pm.foldl (fun acc p => acc ++ annotateGroup p.2.length 0 p.2) []
  applyAssignments assignments 0 links

/-! ## DiagramState (`d3_diagram_utils.js` 770-951) -/

/-- A concrete edge as stored on a path: real graph links have `source`/`target`
populated; the `'?p'` placeholder of `expandPathToEdgePaths` has neither. -/
structure PathEdge where
  source : Option String
  target : Option String
  property : String
  datasets : List String
deriving Repr, DecidableEq

/-- Embed a graph link as a path edge. -/
def Link.toPathEdge (l : Link) : PathEdge :=
  { source := some l.source, target := some l.target
  , property := l.property, datasets := l.datasets }

/-- The placeholder edge `{ property: '?p' }` (`ls_cloud.js` 1836). -/
def placeholderEdge : PathEdge :=
  { source := none, target := none, property := "?p", datasets := [] }

/-- Input to `addPathGroup`: `{ path, edges, fromLabel, toLabel }`. -/
structure PathData where
  path : List String
  edges : List PathEdge
  fromLabel : String
  toLabel : String
deriving Repr, DecidableEq

/-- A stored path after `addPathGroup` (the wall-clock random `id` field of the
source is nondeterministic session bookkeeping and not part of any claim). -/
structure StoredPath where
  path : List String
  edges : List PathEdge
  fromLabel : String
  toLabel : String
  colorIndex : Nat
  pathNumber : Nat
  totalPaths : Nat
deriving Repr, DecidableEq

/-- Node highlight record `{ color, isStart }`. -/
structure NodeHL where
  color : String
  isStart : Bool
deriving Repr, DecidableEq

/-- Edge highlight record `{ color }`. -/
structure EdgeHL where
  color : String
deriving Repr, DecidableEq

/-- The `DiagramState` container (pure state, no DOM). -/
structure DiagramState where
  pathColors : List String
  paths : List StoredPath
  nextColorIndex : Nat
  highlightedNodes : List (String × NodeHL)
  highlightedEdges : List (String × EdgeHL)
deriving Repr, DecidableEq

/-- The default `pathColors` palette. -/
def defaultPathColors : List String :=
  [ "#4285f4", "#ea4335", "#34a853", "#fbbc04", "#9c27b0"
  , "#00acc1", "#ff7043", "#7cb342", "#5c6bc0", "#f06292" ]

/-- A freshly constructed `DiagramState` (constructor with default options). -/
def initDiagramState : DiagramState :=
  { pathColors := defaultPathColors, paths := [], nextColorIndex := 0
  , highlightedNodes := [], highlightedEdges := [] }

/-- `getPathColor(colorIndex)`. -/
def getPathColor (s : DiagramState) (colorIndex : Nat) : String :=
  (s.pathColors.get? (colorIndex % s.pathColors.length)).getD ""

/-- Per-path node highlighting: first path touching a node wins its color. -/
def hlNodesOfPath (m : List (String × NodeHL)) (color : String) (path : List String) :
    List (String × NodeHL) :=
  path.enum.foldl (fun m p =>
    if acontains m p.2 then m
    else aset m p.2 { color := color, isStart := p.1 == 0 }) m

/-- Per-path edge highlighting: direction-agnostic pair keys plus
property-qualified keys when the concrete edge carries a property. -/
def hlEdgesOfPath (m : List (String × EdgeHL)) (color : String)
    (path : List String) (edges : List PathEdge) : List (String × EdgeHL) :=
  (path.zip path.tail).enum.foldl (fun m q =>
    let fr := q.2.1
    let tn := q.2.2
    let m := aset m (fr ++ "|||" ++ tn) { color := color }
    let m := aset m (tn ++ "|||" ++ fr) { color := color }
    match edges.get? q.1 with
    | some e =>
      if e.property ≠ "" then
        let m := aset m (fr ++ "|||" ++ tn ++ "|||" ++ e.property) { color := color }
        aset m (tn ++ "|||" ++ fr ++ "|||" ++ e.property) { color := color }
      else m
    | none => m) m

/-- One step of the `this.paths.forEach` loop of `_rebuildHighlightMaps`. -/
def rebuildStep (s : DiagramState) (acc : DiagramState) (p : StoredPath) : DiagramState :=
  if p.path.isEmpty then acc
  else
    let color := getPathColor s p.colorIndex
    { acc with
      highlightedNodes := hlNodesOfPath acc.highlightedNodes color p.path
    , highlightedEdges := hlEdgesOfPath acc.highlightedEdges color p.path p.edges }

/-- `_rebuildHighlightMaps()`: highlight maps are a pure function of `paths`. -/
def rebuildHighlightMaps (s : DiagramState) : DiagramState :=
  let cleared := { s with highlightedNodes := [], highlightedEdges := [] }
  s.paths.foldl (rebuildStep s) cleared

/-- `addPathGroup(pathDataArray)`: one fresh color for the whole group. -/
def addPathGroup (s : DiagramState) (group : List PathData) : DiagramState × Int :=
  if group.isEmpty then (s, -1)
  else
    let colorIndex := s.nextColorIndex
    let s' := { s with
      nextColorIndex := s.nextColorIndex + 1
    , paths := s.paths ++ group.enum.map (fun g =>
        { path := g.2.path, edges := g.2.edges
        , fromLabel := g.2.fromLabel, toLabel := g.2.toLabel
        , colorIndex := colorIndex, pathNumber := g.1 + 1
        , totalPaths := group.length }) }
    (rebuildHighlightMaps s', (colorIndex : Int))

/-- `removePath(index)`: splice one path out, rebuild highlight maps. -/
def removePath (s : DiagramState) (index : Nat) : DiagramState :=
  if index ≥ s.paths.length then s
  else rebuildHighlightMaps { s with paths := s.paths.eraseIdx index }

/-- `clearPaths()`. -/
def clearPaths (s : DiagramState) : DiagramState :=
  { s with paths := [], nextColorIndex := 0,
           highlightedNodes := [], highlightedEdges := [] }

/-- Repeated `removePath(0)` calls. -/
def removeFirstRepeat (s : DiagramState) : Nat → DiagramState
  | 0 => s
  | n + 1 => removeFirstRepeat (removePath s 0) n

/-- Calling `removePath` until the paths list is empty. -/
def removeAllPaths (s : DiagramState) : DiagramState :=
  removeFirstRepeat s s.paths.length

/-! ## Path finding (`ls_cloud.js` 1741-1815) -/

/-- Undirected adjacency built from the links (`findPath`/`findAllPaths` preamble):
each link contributes its target to the source's list and vice versa. -/
def adjStep (adj : List (String × List String)) (l : Link) :
    List (String × List String) :=
  let s := l.source
  let t := l.target
  let adj := if acontains adj s then adj else aset adj s []
  let adj := if acontains adj t then adj else aset adj t []
  let adj := aupdate adj s (fun ns => ns ++ [t])
  aupdate adj t (fun ns => ns ++ [s])

def buildAdjacency (links : List Link) : List (String × List String) :=
  links.foldl adjStep []

/-- `adjacency.get(node) || []`. -/
def adjGet (adj : List (String × List String)) (v : String) : List String :=
  (alookup adj v).getD []

/-- One pop of the BFS `while` loop of `findPath`.  The JS loop has no fuel; the
fuel argument only bounds the iteration count for totality, and
`bfsFuel` below is provably enough for the loop to run to its genuine exit
(the fuel-0 and empty-path branches are unreachable from `findPath`). -/
def bfsAux (adj : List (String × List String)) (endId : String) :
    Nat → List String → List (List String) → Option (List String)
  | 0, _, _ => none
  | _ + 1, _, [] => none
  | fuel + 1, visited, path :: queue =>
    match path.getLast? with
    | none => none
    | some node =>
      if node = endId then some path
      else if visited.contains node then bfsAux adj endId fuel visited queue
      else
        let visited' := node :: visited
        let pushes := ((adjGet adj node).filter (fun n => ¬visited'.contains n)).map
          (fun n => path ++ [n])
        bfsAux adj endId fuel visited' (queue ++ pushes)

/-- Enough fuel for `bfsAux`: one pop per initial entry plus one per possible push. -/
def bfsFuel (adj : List (String × List String)) (startId : String) : Nat :=
  ((startId :: adj.map Prod.fst).map (fun v => (adjGet adj v).length)).sum + 2

/-- `LsCloud.findPath(startId, endId)`: BFS over the undirected adjacency. -/
def findPath (links : List Link) (startId endId : String) : Option (List String) :=
  let adj := buildAdjacency links
  bfsAux adj endId (bfsFuel adj startId) [] [[startId]]

/-- Nodes `a` and `b` are joined by some link, in either direction. -/
def linkedUndir (links : List Link) (a b : String) : Prop :=
  ∃ l ∈ links, (a = l.source ∧ b = l.target) ∨ (a = l.target ∧ b = l.source)

/-- A BFS-valid path: nonempty, starts at `startId`, and steps along the
adjacency lists. -/
def VPath (adj : List (String × List String)) (startId : String)
    (p : List String) : Prop :=
  p.head? = some startId ∧ p.Chain' (fun a b => b ∈ adjGet adj a)

/-- Some valid path of length `d` ends at `v`. -/
def ReachLen (adj : List (String × List String)) (startId v : String) (d : Nat) :
    Prop :=
  ∃ q, VPath adj startId q ∧ q.getLast? = some v ∧ q.length = d

/-- Every vertex the BFS can ever pop. -/
def adjUniverse (adj : List (String × List String)) (startId : String) :
    List String :=
  startId :: adj.map Prod.fst

/-- Total degree of the not-yet-visited universe: the BFS fuel reserve. -/
def unvisitedDeg (adj : List (String × List String)) (startId : String)
    (visited : List String) : Nat :=
  (((adjUniverse adj startId).filter (fun v => decide (v ∉ visited))).map
    (fun v => (adjGet adj v).length)).sum

/-- The `bfsAux` loop invariant: the queue holds valid paths sorted by length
spanning at most two levels, `endId` is never marked visited, every neighbour
of a visited vertex is visited or optimally enqueued, every valid path to an
unvisited vertex is covered at its first unvisited vertex by a queue entry of
optimal length, queue entries end inside the vertex universe, and the fuel
dominates the remaining work. -/
structure BfsInv (adj : List (String × List String)) (startId endId : String)
    (fuel : Nat) (visited : List String) (queue : List (List String)) : Prop where
  qok : ∀ p ∈ queue, VPath adj startId p
  sorted : (queue.map List.length).Pairwise (· ≤ ·)
  twoLevel : ∀ p ∈ queue, ∀ h ∈ queue.head?, p.length ≤ h.length + 1
  endNotVis : endId ∉ visited
  close : ∀ v ∈ visited, ∀ n, n ∈ adjGet adj v →
    n ∈ visited ∨ ∃ p ∈ queue, p.getLast? = some n ∧
      ∀ d, ReachLen adj startId v d → p.length ≤ d + 1
  fup : ∀ q, VPath adj startId q → ∀ u, q.getLast? = some u → u ∉ visited →
    ∃ i, i < q.length ∧ (∀ j, j < i → ∀ x, q.get? j = some x → x ∈ visited) ∧
      ∃ w, q.get? i = some w ∧ w ∉ visited ∧
        ∃ p ∈ queue, p.getLast? = some w ∧ p.length ≤ i + 1
  lasts : ∀ p ∈ queue, ∀ v, p.getLast? = some v → v ∈ adjUniverse adj startId
  fuelOk : queue.length + unvisitedDeg adj startId visited + 1 ≤ fuel

mutual

/-- Body of the recursive `dfs(currentId, path)` closure of `findAllPaths`.
The backtracking `visited.add`/`visited.delete` pair is modelled by passing the
extended visited set only to the recursive calls.  Fuel only bounds the depth
for totality; `findAllPaths` supplies enough for the `maxDepth` guard to fire
first, making the fuel-0 branch unreachable. -/
def dfsVisit (adj : List (String × List String)) (endId : String)
    (maxPaths maxDepth : Nat) (fuel : Nat) (currentId : String)
    (path visited : List String) (acc : List (List String)) : List (List String) :=
  match fuel with
  | 0 => acc
  | fuel + 1 =>
    if acc.length ≥ maxPaths then acc
    else if path.length > maxDepth then acc
    else if currentId = endId then acc ++ [path]
    else dfsNbrs adj endId maxPaths maxDepth fuel (adjGet adj currentId) path
      (currentId :: visited) acc
termination_by (fuel, 0)

/-- The `for (const neighbor of neighbors)` loop with its early `break` once
`maxPaths` solutions are collected. -/
def dfsNbrs (adj : List (String × List String)) (endId : String)
    (maxPaths maxDepth : Nat) (fuel : Nat) (nbrs : List String)
    (path visited : List String) (acc : List (List String)) : List (List String) :=
  match nbrs with
  | [] => acc
  | n :: rest =>
    if visited.contains n then
      dfsNbrs adj endId maxPaths maxDepth fuel rest path visited acc
    else
      let acc' := dfsVisit adj endId maxPaths maxDepth fuel n (path ++ [n]) visited acc
      if acc'.length ≥ maxPaths then acc'
      else dfsNbrs adj endId maxPaths maxDepth fuel rest path visited acc'
termination_by (fuel, nbrs.length + 1)

end

/-- `LsCloud.findAllPaths(startId, endId, maxPaths = 50, maxDepth = 10)`. -/
def findAllPaths (links : List Link) (startId endId : String)
    (maxPaths : Nat := 50) (maxDepth : Nat := 10) : List (List String) :=
  let adj := buildAdjacency links
  dfsVisit adj endId maxPaths maxDepth (maxDepth + 1) startId [startId] [] []

/-! ## Node-path expansion (`LsCloud.expandPathToEdgePaths`, `ls_cloud.js` 1823-1858) -/

/-- All links between a consecutive node pair, in either stored direction. -/
def edgesBetween (links : List Link) (fromId toId : String) : List Link :=
  links.filter (fun l =>
    (l.source == fromId && l.target == toId) || (l.source == toId && l.target == fromId))

/-- The `edgeOptions` array: per consecutive pair, all connecting edges, or the
`'?p'` placeholder when none exist. -/
def edgeOptionsOf (links : List Link) (nodePath : List String) : List (List PathEdge) :=
  (nodePath.zip nodePath.tail).map (fun p =>
    let edges := edgesBetween links p.1 p.2
    if edges.isEmpty then [placeholderEdge] else edges.map Link.toPathEdge)

/-- `generateCombinations`: Cartesian product in left-to-right order. -/
def generateCombinations : List (List PathEdge) → List (List PathEdge)
  | [] => [[]]
  | opts :: rest => opts.flatMap (fun e => (generateCombinations rest).map (fun c => e :: c))

/-- A concrete edge-path `{ nodes, edges }`. -/
structure EdgePath where
  nodes : List String
  edges : List PathEdge
deriving Repr, DecidableEq

/-- `LsCloud.expandPathToEdgePaths(nodePath)`. -/
def expandPathToEdgePaths (links : List Link) (nodePath : List String) : List EdgePath :=
  if nodePath.length < 2 then []
  else (generateCombinations (edgeOptionsOf links nodePath)).map
    (fun es => { nodes := nodePath, edges := es })

/-! ## SPARQL compilation (`LsCloud.generateSparqlFromPaths`, `ls_cloud.js` 570-770) -/

/-- One entry of `window.rdfsolve.sourcesData`. -/
structure SourceInfo where
  endpointUrl : String
  graphUri : String
  useGraph : Bool
deriving Repr, DecidableEq

/-- Result of the `getDatasetInfo` helper. -/
structure DSInfo where
  endpoint : String
  graph : Option String
deriving Repr, DecidableEq

/-- `getDatasetInfo(datasetName)` (`ls_cloud.js` 579-585). -/
def getDatasetInfo (sourcesData : List (String × SourceInfo)) (datasetName : String) :
    DSInfo :=
  match alookup sourcesData datasetName with
  | some src =>
    { endpoint := src.endpointUrl
    , graph := if src.useGraph ∧ src.graphUri ≠ "" then some src.graphUri else none }
  | none => { endpoint := "", graph := none }

/-- `getVarName(typeLabel)` (`ls_cloud.js` 590-596): strip a leading CURIE
prefix, keep `[a-zA-Z0-9_]`, default `node`, lower-case the first character. -/
def getVarName (typeLabel : String) : String :=
  let baseName :=
    match strSplit typeLabel (fun c => c = ':') with
    | first :: rest => if first ≠ "" ∧ rest ≠ [] then String.intercalate ":" rest else typeLabel
    | [] => typeLabel
  let baseName := String.mk (baseName.data.filter (fun c => c.isAlphanum ∨ c = '_'))
  let baseName := if baseName = "" then "node" else baseName
  match baseName.data with
  | [] => baseName
  | c :: cs => String.mk (c.toLower :: cs)

/-- The variable-assignment accumulator shared across all paths. -/
structure VarAcc where
  varCounter : List (String × Nat)
  selectVars : List String
deriving Repr, DecidableEq

/-- The `path.forEach(nodeId => …)` variable-assignment loop (`ls_cloud.js` 622-635). -/
def assignPathVars (nodes : List GNodeOut) (acc : VarAcc)
    (nodeVarMap : List (String × String)) :
    List String → VarAcc × List (String × String)
  | [] => (acc, nodeVarMap)
  | nodeId :: rest =>
    if acontains nodeVarMap nodeId then assignPathVars nodes acc nodeVarMap rest
    else
      let typeLabel :=
        match nodes.find? (fun n => n.id == nodeId) with
        | some n => n.label
        | none => nodeId
      let varName := getVarName typeLabel
      let cnt := (alookup acc.varCounter varName).getD 0
      let varWithSuffix := if cnt == 0 then varName else varName ++ toString cnt
      let acc' : VarAcc :=
        { varCounter := aset acc.varCounter varName (cnt + 1)
        , selectVars := setAdd acc.selectVars varWithSuffix }
      assignPathVars nodes acc' (aset nodeVarMap nodeId varWithSuffix) rest

/-- `endpoint → graphKey → patterns`, insertion-ordered at both levels. -/
def EPMap : Type := List (String × List (String × List String))

/-- The `addPattern(endpoint, graph, pattern)` closure (`ls_cloud.js` 603-612). -/
def addPattern (m : EPMap) (endpoint : String) (graph : Option String)
    (pattern : String) : EPMap :=
  let m : List (String × List (String × List String)) := m
  let m := if acontains m endpoint then m else aset m endpoint []
  let graphKey := graph.getD ""
  aupdate m endpoint (fun gm =>
    let gm := if acontains gm graphKey then gm else aset gm graphKey []
    aupdate gm graphKey (fun pats => pats ++ [pattern]))

/-- `predSparql` (`ls_cloud.js` 667-668): the predicate IRI, or a fresh
variable when the edge has no property (JS falsiness of the empty string). -/
def predSparql (edge : PathEdge) (pathIdx i : Nat) : String :=
  if edge.property ≠ "" then "<" ++ edge.property ++ ">"
  else "?p" ++ toString pathIdx ++ "_" ++ toString i

/-- The `(endpoint, graph, pattern)` triples emitted for one consecutive pair
(`ls_cloud.js` 653-706): direction from the edge's own `source`/`target`,
optional type assertions, placement from the edge's first dataset. -/
def pairEmissions (nodes : List GNodeOut) (sourcesData : List (String × SourceInfo))
    (primaryEndpoint : String) (requireType : Bool)
    (nodeVarMap : List (String × String)) (pathIdx i : Nat)
    (fromId toId : String) (edge : PathEdge) :
    List (String × Option String × String) :=
  let fromVar := (alookup nodeVarMap fromId).getD ""
  let toVar := (alookup nodeVarMap toId).getD ""
  let isForward := edge.source == some fromId && edge.target == some toId
  let subjVar := if isForward then fromVar else toVar
  let objVar := if isForward then toVar else fromVar
  let subjNodeId := if isForward then fromId else toId
  let objNodeId := if isForward then toId else fromId
  let pred := predSparql edge pathIdx i
  let relPattern := "?" ++ subjVar ++ " " ++ pred ++ " ?" ++ objVar ++ " ."
  let placement : String × Option String :=
    if edge.datasets ≠ [] then
      let info := getDatasetInfo sourcesData (edge.datasets.headD "")
      (info.endpoint, info.graph)
    else (primaryEndpoint, none)
  let typeAssertions :=
    if requireType then
      (match nodes.find? (fun n => n.id == subjNodeId) with
       | some subjNode =>
         [(placement.1, placement.2, "?" ++ subjVar ++ " a <" ++ subjNode.id ++ "> .")]
       | none => []) ++
      (match nodes.find? (fun n => n.id == objNodeId) with
       | some objNode =>
         [(placement.1, placement.2, "?" ++ objVar ++ " a <" ++ objNode.id ++ "> .")]
       | none => [])
    else []
  typeAssertions ++ [(placement.1, placement.2, relPattern)]

/-- Fold a list of emissions into the endpoint-pattern map via `addPattern`. -/
def addEmissions (m : EPMap) (l : List (String × Option String × String)) : EPMap :=
  l.foldl (fun m e => addPattern m e.1 e.2.1 e.2.2) m

/-- The `for (let i = 0; i < path.length - 1; i++)` edge loop (`ls_cloud.js` 638-707). -/
def processPairs (gd : GraphData) (sourcesData : List (String × SourceInfo))
    (primaryEndpoint : String) (requireType : Bool)
    (nodeVarMap : List (String × String)) (storedEdges : List PathEdge)
    (pathIdx : Nat) (m : EPMap) (i : Nat) :
    List (String × String) → EPMap
  | [] => m
  | (fromId, toId) :: rest =>
    let edgeOpt :=
      match storedEdges.get? i with
      | some e => some e
      | none =>
        (gd.links.find? (fun l =>
          (l.source == fromId && l.target == toId) ||
          (l.source == toId && l.target == fromId))).map Link.toPathEdge
    match edgeOpt with
    | none =>
      processPairs gd sourcesData primaryEndpoint requireType nodeVarMap storedEdges
        pathIdx m (i + 1) rest
    | some edge =>
      let m' := addEmissions m (pairEmissions gd.nodes sourcesData primaryEndpoint
        requireType nodeVarMap pathIdx i fromId toId edge)
      processPairs gd sourcesData primaryEndpoint requireType nodeVarMap storedEdges
        pathIdx m' (i + 1) rest

/-- Processing of one accumulated path (`this.allPaths.forEach` body). -/
def processPath (gd : GraphData) (sourcesData : List (String × SourceInfo))
    (primaryEndpoint : String) (requireType : Bool)
    (st : VarAcc × EPMap) (pathIdx : Nat) (pathData : PathData) : VarAcc × EPMap :=
  let path := pathData.path
  if path.length < 2 then st
  else
    let (acc, nodeVarMap) := assignPathVars gd.nodes st.1 [] path
    let m := processPairs gd sourcesData primaryEndpoint requireType nodeVarMap
      pathData.edges pathIdx st.2 0 (path.zip path.tail)
    (acc, m)

/-- State after folding all accumulated paths. -/
def buildQueryState (gd : GraphData) (sourcesData : List (String × SourceInfo))
    (primaryEndpoint : String) (requireType : Bool) (allPaths : List PathData) :
    VarAcc × EPMap :=
  allPaths.enum.foldl (fun st p =>
    processPath gd sourcesData primaryEndpoint requireType st p.1 p.2)
    ({ varCounter := [], selectVars := [] }, ([] : EPMap))

/-- `[...new Set(patterns)]`: deduplicate keeping first occurrences. -/
def jsDedupAux (seen : List String) : List String → List String
  | [] => []
  | x :: rest =>
    if seen.contains x then jsDedupAux seen rest
    else x :: jsDedupAux (seen ++ [x]) rest

/-- Exact-string pattern deduplication within a graph scope. -/
def jsDedup (l : List String) : List String := jsDedupAux [] l

/-- The `graphMap.forEach` rendering (`ls_cloud.js` 725-735). -/
def renderGraphPatterns (gm : List (String × List String)) : List String :=
  gm.map (fun p =>
    let uniquePatterns := jsDedup p.2
    if p.1 ≠ "" then
      "GRAPH <" ++ p.1 ++ "> \x7b\n      " ++
        String.intercalate "\n      " uniquePatterns ++ "\n    \x7d"
    else String.intercalate "\n    " uniquePatterns)

/-- One `whereLines` entry (`ls_cloud.js` 721-750): the first endpoint is
primary and emitted bare; every later endpoint is wrapped in one SERVICE block. -/
def renderEndpoint (epIdx : Nat) (endpoint : String)
    (gm : List (String × List String)) : String :=
  let innerContent := String.intercalate "\n    " (renderGraphPatterns gm)
  if epIdx > 0 then
    "  SERVICE <" ++ endpoint ++ "> \x7b\n    " ++ innerContent ++ "\n  \x7d"
  else "  " ++ innerContent

/-- The endpoint-less fallback lines (`ls_cloud.js` 753-763). -/
def renderNoEndpoint (gm : List (String × List String)) : List String :=
  gm.map (fun p =>
    let uniquePatterns := jsDedup p.2
    if p.1 ≠ "" then
      "  GRAPH <" ++ p.1 ++ "> \x7b\n    " ++
        String.intercalate "\n    " uniquePatterns ++ "\n  \x7d"
    else "  " ++ String.intercalate "\n  " uniquePatterns)

/-- The lines contributed by patterns whose dataset had no endpoint
(`ls_cloud.js` 753-763: the `graphMap.get('')` branch). -/
def fallbackLines (o : Option (List (String × List String))) : List String :=
  match o with
  | some gm => renderNoEndpoint gm
  | none => []

/-- `LsCloud.generateSparqlFromPaths(requireType = true)`; the surrounding
object state (`graphData`, `sourcesData`, `primaryEndpoint`, `allPaths`) is
passed explicitly. -/
def generateSparqlFromPaths (gd : GraphData) (sourcesData : List (String × SourceInfo))
    (primaryEndpoint : String) (requireType : Bool) (allPaths : List PathData) : String :=
  if allPaths.isEmpty then "# No paths selected"
  else
    let st := buildQueryState gd sourcesData primaryEndpoint requireType allPaths
    let selectVarsList := String.intercalate " " (st.1.selectVars.map (fun v => "?" ++ v))
    let endpoints := (st.2.map Prod.fst).filter (fun e => e ≠ "")
    let whereLines := endpoints.enum.map (fun p =>
      renderEndpoint p.1 p.2 ((alookup st.2 p.2).getD []))
    let whereLines := whereLines ++ fallbackLines (alookup st.2 "")
    "SELECT DISTINCT " ++ selectVarsList ++ "\nWHERE \x7b\n" ++
      String.intercalate "\n\n" whereLines ++ "\n\x7d" ++ "\nLIMIT 100"

/-! ## Association-list lemmas -/

theorem alookup_cons {α : Type} (p : String × α) (rest : List (String × α)) (k : String) :
    alookup (p :: rest) k = if p.1 = k then some p.2 else alookup rest k := by
  by_cases h : p.1 = k
  · simp [alookup, List.find?_cons_of_pos, h]
  · simp [alookup, List.find?_cons_of_neg, h]

theorem alookup_append {α : Type} (m m' : List (String × α)) (k : String) :
    alookup (m ++ m') k = (alookup m k).or (alookup m' k) := by
  induction m with
  | nil => simp [alookup]
  | cons p rest ih =>
    rw [List.cons_append, alookup_cons, alookup_cons]
    by_cases h : p.1 = k <;> simp [h, ih]

theorem alookup_setmap {α : Type} (m : List (String × α)) (k k' : String) (v : α) :
    alookup (m.map (fun p => if p.1 = k then (k, v) else p)) k' =
      if k' = k then (alookup m k).map (fun _ => v) else alookup m k' := by
  induction m with
  | nil => by_cases h : k' = k <;> simp [alookup, h]
  | cons p rest ih =>
    rw [List.map_cons]
    by_cases hp : p.1 = k
    · by_cases hk : k' = k
      · subst hk
        simp [hp, alookup_cons]
      · have hk2 : ¬(k = k') := fun hh => hk hh.symm
        have hp2 : ¬(p.1 = k') := by rw [hp]; exact hk2
        simp [hp, hk, hk2, hp2, alookup_cons, ih]
    · by_cases hk : k' = k
      · subst hk
        simp [hp, alookup_cons, ih]
      · by_cases hp' : p.1 = k'
        · simp [hp, hk, hp', alookup_cons]
        · simp [hp, hk, hp', alookup_cons, ih]

theorem alookup_eq_none_iff {α : Type} (m : List (String × α)) (k : String) :
    alookup m k = none ↔ k ∉ m.map Prod.fst := by
  induction m with
  | nil => simp [alookup]
  | cons p rest ih =>
    rw [alookup_cons]
    by_cases h : p.1 = k <;> simp [h, ih, Ne.symm]

theorem acontains_false_iff {α : Type} (m : List (String × α)) (k : String) :
    acontains m k = false ↔ k ∉ m.map Prod.fst := by
  unfold acontains
  rw [← alookup_eq_none_iff]
  cases alookup m k <;> simp

theorem alookup_mem {α : Type} {m : List (String × α)} {k : String} {v : α}
    (h : alookup m k = some v) : (k, v) ∈ m := by
  induction m with
  | nil => simp [alookup] at h
  | cons p rest ih =>
    rw [alookup_cons] at h
    by_cases hp : p.1 = k
    · rw [if_pos hp] at h
      cases p with
      | mk a b => simp_all
    · rw [if_neg hp] at h
      exact List.mem_cons_of_mem _ (ih h)

theorem alookup_aset {α : Type} (m : List (String × α)) (k k' : String) (v : α) :
    alookup (aset m k v) k' = if k' = k then some v else alookup m k' := by
  unfold aset
  by_cases hc : acontains m k = true
  · rw [if_pos hc, alookup_setmap]
    by_cases hk : k' = k
    · unfold acontains at hc
      rw [if_pos hk, if_pos hk]
      cases hl : alookup m k <;> simp_all
    · simp [hk]
  · rw [if_neg hc, alookup_append]
    have hnone : alookup m k = none := by
      rw [Bool.not_eq_true] at hc
      unfold acontains at hc
      cases hl : alookup m k <;> simp_all
    by_cases hk : k' = k
    · subst hk
      rw [hnone, alookup_cons]
      simp
    · rw [if_neg hk, alookup_cons]
      simp only [if_neg (Ne.symm hk), alookup]
      cases alookup m k' <;> simp

theorem alookup_aset_self {α : Type} (m : List (String × α)) (k : String) (v : α) :
    alookup (aset m k v) k = some v := by
  rw [alookup_aset, if_pos rfl]

theorem alookup_aupdate {α : Type} (m : List (String × α)) (k k' : String) (f : α → α) :
    alookup (aupdate m k f) k' =
      if k' = k then (alookup m k).map f else alookup m k' := by
  induction m with
  | nil => by_cases h : k' = k <;> simp [alookup, aupdate, h]
  | cons p rest ih =>
    unfold aupdate
    rw [List.map_cons]
    unfold aupdate at ih
    by_cases hp : p.1 = k
    · by_cases hk : k' = k
      · subst hk
        simp [hp, alookup_cons]
      · have hp2 : ¬(p.1 = k') := by rw [hp]; exact fun hh => hk hh.symm
        have hk2 : ¬(k = k') := fun hh => hk hh.symm
        simp [hp, hk, hp2, hk2, alookup_cons, ih]
    · by_cases hk : k' = k
      · subst hk
        simp [hp, alookup_cons, ih]
      · by_cases hp' : p.1 = k'
        · simp [hp, hk, hp', alookup_cons]
        · simp [hp, hk, hp', alookup_cons, ih]

theorem keys_aset {α : Type} (m : List (String × α)) (k : String) (v : α) :
    (aset m k v).map Prod.fst =
      if acontains m k then m.map Prod.fst else m.map Prod.fst ++ [k] := by
  unfold aset
  by_cases hc : acontains m k = true
  · rw [if_pos hc, if_pos hc, List.map_map]
    apply List.map_congr_left
    intro p _
    by_cases hp : p.1 = k <;> simp [hp, Function.comp]
  · rw [if_neg hc, if_neg hc]
    simp

theorem keys_aupdate {α : Type} (m : List (String × α)) (k : String) (f : α → α) :
    (aupdate m k f).map Prod.fst = m.map Prod.fst := by
  unfold aupdate
  rw [List.map_map]
  apply List.map_congr_left
  intro p _
  by_cases hp : p.1 = k <;> simp [hp, Function.comp]

theorem mem_aupdate {α : Type} {m : List (String × α)} {k : String} {f : α → α}
    {q : String × α} (h : q ∈ aupdate m k f) :
    ∃ v, (q.1, v) ∈ m ∧ (q.2 = v ∨ q.2 = f v) := by
  unfold aupdate at h
  rw [List.mem_map] at h
  obtain ⟨p, hp, hq⟩ := h
  by_cases hpk : p.1 = k
  · rw [if_pos hpk] at hq
    refine ⟨p.2, ?_, Or.inr (by rw [← hq])⟩
    rw [← hq]
    simpa using hp
  · rw [if_neg hpk] at hq
    exact ⟨p.2, by rw [← hq]; exact hp, Or.inl (by rw [← hq])⟩

theorem mem_aset {α : Type} {m : List (String × α)} {k : String} {v : α}
    {q : String × α} (h : q ∈ aset m k v) : q ∈ m ∨ q = (k, v) := by
  unfold aset at h
  by_cases hc : acontains m k = true
  · rw [if_pos hc, List.mem_map] at h
    obtain ⟨p, hp, hq⟩ := h
    by_cases hpk : p.1 = k
    · rw [if_pos hpk] at hq
      exact Or.inr hq.symm
    · rw [if_neg hpk] at hq
      exact Or.inl (hq ▸ hp)
  · rw [if_neg hc, List.mem_append, List.mem_singleton] at h
    exact h

/-! ## C9: exclusion with the filter disabled -/

/-- Claim C9 as stated is false: the empty/missing URI is excluded even when
the filter is disabled, because the `!uri` guard precedes the enabled check in
both `isExcludedUri` and `isExcludedNode`. -/
theorem C9_counterexample :
    isExcludedUri "" false = true ∧ isExcludedNode false "" = true := by
  constructor <;> rfl

/-- C9 (amended): with the filter disabled, the exclusion check returns false
for every non-empty URI; the empty/missing URI alone returns true regardless. -/
theorem C9_disabled_filter (uri : String) (h : uri ≠ "") :
    isExcludedUri uri false = false ∧ isExcludedNode false uri = false := by
  constructor
  · unfold isExcludedUri
    simp [h]
  · unfold isExcludedNode
    simp [h]

/-- Witness for C9: a concrete non-empty URI passes the disabled filter. -/
theorem C9_witness :
    "http://example.org/Gene" ≠ "" ∧
      isExcludedUri "http://example.org/Gene" false = false ∧
      isExcludedNode false "http://example.org/Gene" = false :=
  ⟨by decide, C9_disabled_filter "http://example.org/Gene" (by decide)⟩

/-! ## C4 and C10: node-path expansion -/

theorem generateCombinations_length (opts : List (List PathEdge)) :
    (generateCombinations opts).length = (opts.map List.length).prod := by
  induction opts with
  | nil => rfl
  | cons o rest ih =>
    simp only [generateCombinations, List.map_cons, List.prod_cons]
    rw [List.length_flatMap]
    have : ∀ e : PathEdge,
        ((generateCombinations rest).map (fun c => e :: c)).length =
          (rest.map List.length).prod := by
      intro e
      rw [List.length_map, ih]
    calc (o.map (fun e => ((generateCombinations rest).map (fun c => e :: c)).length)).sum
        = (o.map (fun _ => (rest.map List.length).prod)).sum := by
          congr 1
          exact List.map_congr_left (fun e _ => this e)
      _ = o.length * (rest.map List.length).prod := by
          rw [List.map_const', List.sum_replicate, smul_eq_mul]

theorem generateCombinations_mem {opts : List (List PathEdge)} {es : List PathEdge}
    (h : es ∈ generateCombinations opts) :
    es.length = opts.length ∧
      ∀ j e, es.get? j = some e → ∃ o, opts.get? j = some o ∧ e ∈ o := by
  induction opts generalizing es with
  | nil =>
    simp only [generateCombinations, List.mem_singleton] at h
    subst h
    exact ⟨rfl, by intro j e he; simp at he⟩
  | cons o rest ih =>
    simp only [generateCombinations, List.mem_flatMap, List.mem_map] at h
    obtain ⟨e0, he0, c, hc, hes⟩ := h
    obtain ⟨hlen, hmem⟩ := ih hc
    subst hes
    refine ⟨by simp [hlen], ?_⟩
    intro j e he
    cases j with
    | zero =>
      simp only [List.get?_cons_zero, Option.some.injEq] at he
      exact ⟨o, rfl, he ▸ he0⟩
    | succ j' =>
      simp only [List.get?_cons_succ] at he ⊢
      exact hmem j' e he

/-- C4: when every consecutive pair of the node-path is connected by at least
one edge, expansion returns exactly the Cartesian product of the per-pair edge
choices, every result sharing the input node sequence. -/
theorem C4_cartesian_expansion (links : List Link) (nodePath : List String)
    (hlen : 2 ≤ nodePath.length)
    (hconn : ∀ p ∈ nodePath.zip nodePath.tail, 1 ≤ (edgesBetween links p.1 p.2).length) :
    (expandPathToEdgePaths links nodePath).length =
      ((nodePath.zip nodePath.tail).map
        (fun p => (edgesBetween links p.1 p.2).length)).prod ∧
    ∀ ep ∈ expandPathToEdgePaths links nodePath, ep.nodes = nodePath := by
  unfold expandPathToEdgePaths
  rw [if_neg (by omega)]
  constructor
  · rw [List.length_map, generateCombinations_length]
    congr 1
    unfold edgeOptionsOf
    rw [List.map_map]
    apply List.map_congr_left
    intro p hp
    have h1 := hconn p hp
    have hne : ¬(edgesBetween links p.1 p.2).isEmpty := by
      cases hmm : edgesBetween links p.1 p.2 with
      | nil => rw [hmm] at h1; simp at h1
      | cons a l => simp [hmm]
    simp only [Function.comp]
    rw [if_neg (by simpa using hne)]
    rw [List.length_map]
  · intro ep hep
    rw [List.mem_map] at hep
    obtain ⟨es, _, heq⟩ := hep
    rw [← heq]

/-- Witness for C4 (Scenario A): two parallel edges between A and B expand a
two-node path into exactly two edge-paths. -/
theorem C4_witness :
    (2 ≤ (["http://x/A", "http://x/B"] : List String).length ∧
      ∀ p ∈ (["http://x/A", "http://x/B"] : List String).zip
          (["http://x/A", "http://x/B"] : List String).tail,
        1 ≤ (edgesBetween
          [ { source := "http://x/A", target := "http://x/B", property := "http://x/p1"
            , label := "p1", datasets := ["ds1"] }
          , { source := "http://x/A", target := "http://x/B", property := "http://x/p2"
            , label := "p2", datasets := ["ds1"] } ] p.1 p.2).length) ∧
    (expandPathToEdgePaths
      [ { source := "http://x/A", target := "http://x/B", property := "http://x/p1"
        , label := "p1", datasets := ["ds1"] }
      , { source := "http://x/A", target := "http://x/B", property := "http://x/p2"
        , label := "p2", datasets := ["ds1"] } ]
      ["http://x/A", "http://x/B"]).length = 2 := by
  refine ⟨⟨by decide, by decide⟩, ?_⟩
  have h := C4_cartesian_expansion
    [ { source := "http://x/A", target := "http://x/B", property := "http://x/p1"
      , label := "p1", datasets := ["ds1"] }
    , { source := "http://x/A", target := "http://x/B", property := "http://x/p2"
      , label := "p2", datasets := ["ds1"] } ]
    ["http://x/A", "http://x/B"] (by decide) (by decide)
  rw [h.1]
  decide

/-- C10: expansion never returns the empty list for a node-path of length ≥ 2;
pairs with no connecting edge receive the `'?p'` placeholder, so the count is
the product of `max 1 kᵢ`; shorter inputs yield the empty list. -/
theorem C10_placeholder_expansion (links : List Link) (nodePath : List String) :
    (nodePath.length < 2 → expandPathToEdgePaths links nodePath = []) ∧
    (2 ≤ nodePath.length →
      (expandPathToEdgePaths links nodePath).length =
        ((nodePath.zip nodePath.tail).map
          (fun p => max 1 (edgesBetween links p.1 p.2).length)).prod ∧
      ∀ ep ∈ expandPathToEdgePaths links nodePath,
        ep.nodes = nodePath ∧
        ∀ j p, (nodePath.zip nodePath.tail).get? j = some p →
          edgesBetween links p.1 p.2 = [] →
          ep.edges.get? j = some placeholderEdge) := by
  constructor
  · intro h
    unfold expandPathToEdgePaths
    rw [if_pos h]
  · intro h
    unfold expandPathToEdgePaths
    rw [if_neg (by omega)]
    constructor
    · rw [List.length_map, generateCombinations_length]
      congr 1
      unfold edgeOptionsOf
      rw [List.map_map]
      apply List.map_congr_left
      intro p _
      simp only [Function.comp]
      cases hmm : edgesBetween links p.1 p.2 with
      | nil => simp
      | cons a l => simp
    · intro ep hep
      rw [List.mem_map] at hep
      obtain ⟨es, hes, heq⟩ := hep
      obtain ⟨hlen, hmem⟩ := generateCombinations_mem hes
      constructor
      · rw [← heq]
      · intro j p hj hempty
        obtain ⟨hplt, -⟩ := List.get?_eq_some.mp hj
        have hjlt : j < es.length := by
          rw [hlen]
          unfold edgeOptionsOf
          rw [List.length_map]
          exact hplt
        obtain ⟨e, he⟩ : ∃ e, es.get? j = some e :=
          ⟨es.get ⟨j, hjlt⟩, List.get?_eq_get hjlt⟩
        obtain ⟨o, ho, hmemo⟩ := hmem j e he
        have hop : o = [placeholderEdge] := by
          unfold edgeOptionsOf at ho
          rw [List.get?_map, hj] at ho
          simp only [Option.map_some', Option.some.injEq] at ho
          rw [← ho, if_pos (by rw [hempty]; rfl)]
        have hepl : e = placeholderEdge := by
          rw [hop] at hmemo
          simpa using hmemo
        rw [← heq]
        show es.get? j = some placeholderEdge
        rw [he, hepl]

/-- Witness for C10: a disconnected middle pair gets the `'?p'` placeholder and
the expansion count is the product of `max 1 kᵢ`. -/
theorem C10_witness :
    2 ≤ (["http://x/A", "http://x/B", "http://x/C"] : List String).length ∧
    (expandPathToEdgePaths
      [ { source := "http://x/A", target := "http://x/B", property := "http://x/p1"
        , label := "p1", datasets := ["ds1"] } ]
      ["http://x/A", "http://x/B", "http://x/C"]).length = 1 ∧
    (expandPathToEdgePaths [] ["http://x/A"]) = [] := by
  refine ⟨by decide, ?_, ?_⟩
  · have h := (C10_placeholder_expansion
      [ { source := "http://x/A", target := "http://x/B", property := "http://x/p1"
        , label := "p1", datasets := ["ds1"] } ]
      ["http://x/A", "http://x/B", "http://x/C"]).2 (by decide)
    rw [h.1]
    decide
  · exact (C10_placeholder_expansion [] ["http://x/A"]).1 (by decide)

/-! ## C2: edge identity in `buildGraphData` -/

/-- The link-map key generated by a row. -/
def rowKey (row : Row) : String :=
  linkKey (effSubjectUri row) (effPropertyUri row) (effObjectUri row)

/-- Every link-map entry's key is the `linkKey` of its own stored fields. -/
def linkMapInv (m : List (String × Link)) : Prop :=
  ∀ q ∈ m, q.1 = linkKey q.2.source q.2.property q.2.target

theorem linkKey_inj_prop {s p p' o : String} (h : linkKey s p o = linkKey s p' o) :
    p = p' := by
  unfold linkKey at h
  have hd := congrArg String.data h
  simp only [String.data_append, List.append_assoc] at hd
  have h1 := List.append_cancel_left hd
  have h2 := List.append_cancel_left h1
  have h3 := List.append_cancel_right h2
  cases p
  cases p'
  exact congrArg String.mk h3

/-- The link created on first sight of a row's `(subject, property, object)` key. -/
def newLinkFor (row : Row) : Link :=
  { source := effSubjectUri row, target := effObjectUri row,
    property := effPropertyUri row,
    label := strOr row.property (getLocalName (effPropertyUri row)),
    datasets := [] }

/-- The row-processing condition under which an edge is created or merged. -/
def rowAddsEdge (enabled : Bool) (row : Row) : Prop :=
  ¬isExcludedNode enabled (effSubjectUri row) = true ∧
    ¬isExcludedNode enabled (effObjectUri row) = true ∧
    effSubjectUri row ≠ effObjectUri row

instance (enabled : Bool) (row : Row) : Decidable (rowAddsEdge enabled row) := by
  unfold rowAddsEdge
  infer_instance

theorem buildGraphStep_linkMap (enabled : Bool) (st : BuildState) (row : Row) :
    (buildGraphStep enabled st row).linkMap =
      if rowAddsEdge enabled row then
        aupdate
          (if acontains st.linkMap (rowKey row) = true then st.linkMap
           else aset st.linkMap (rowKey row) (newLinkFor row))
          (rowKey row)
          (fun l => { l with datasets := setAdd l.datasets row.source_dataset })
      else st.linkMap := by
  unfold buildGraphStep rowKey newLinkFor rowAddsEdge
  dsimp only
  rw [apply_ite BuildState.linkMap]

theorem buildGraphStep_linkMapInv (enabled : Bool) (st : BuildState) (row : Row)
    (h : linkMapInv st.linkMap) : linkMapInv (buildGraphStep enabled st row).linkMap := by
  rw [buildGraphStep_linkMap]
  by_cases hc : rowAddsEdge enabled row
  · rw [if_pos hc]
    intro q hq
    obtain ⟨v, hv, hq2⟩ := mem_aupdate hq
    have hvm : (q.1, v) ∈ st.linkMap ∨ (q.1, v) = (rowKey row, newLinkFor row) := by
      by_cases hk : acontains st.linkMap (rowKey row) = true
      · rw [if_pos hk] at hv
        exact Or.inl hv
      · rw [if_neg hk] at hv
        exact mem_aset hv
    have hkey : q.1 = linkKey v.source v.property v.target := by
      rcases hvm with hvm | hvm
      · exact h _ hvm
      · have e1 : q.1 = rowKey row := congrArg Prod.fst hvm
        have e2 : v = newLinkFor row := congrArg Prod.snd hvm
        rw [e1, e2]
        rfl
    rcases hq2 with hq2 | hq2
    · rw [hkey, hq2]
    · rw [hkey, hq2]
  · rw [if_neg hc]
    exact h

theorem buildGraphStep_linkMap_mono (enabled : Bool) (st : BuildState) (row : Row)
    (k : String) (h : acontains st.linkMap k = true) :
    acontains (buildGraphStep enabled st row).linkMap k = true := by
  rw [buildGraphStep_linkMap]
  by_cases hc : rowAddsEdge enabled row
  · rw [if_pos hc]
    by_cases hck : acontains st.linkMap (rowKey row) = true
    · rw [if_pos hck]
      unfold acontains at h hck ⊢
      rw [alookup_aupdate]
      by_cases hk : k = rowKey row
      · rw [if_pos hk]
        cases hl : alookup st.linkMap (rowKey row) <;> simp_all
      · rw [if_neg hk]
        exact h
    · rw [if_neg hck]
      unfold acontains at h ⊢
      rw [alookup_aupdate]
      by_cases hk : k = rowKey row
      · rw [if_pos hk, alookup_aset_self]
        simp
      · rw [if_neg hk, alookup_aset, if_neg hk]
        exact h
  · rw [if_neg hc]
    exact h

theorem buildGraphStep_linkMap_adds (enabled : Bool) (st : BuildState) (row : Row)
    (h1 : isExcludedNode enabled (effSubjectUri row) = false)
    (h2 : isExcludedNode enabled (effObjectUri row) = false)
    (h3 : effSubjectUri row ≠ effObjectUri row) :
    acontains (buildGraphStep enabled st row).linkMap (rowKey row) = true := by
  rw [buildGraphStep_linkMap]
  rw [if_pos (show rowAddsEdge enabled row from ⟨by simp [h1], by simp [h2], h3⟩)]
  by_cases hck : acontains st.linkMap (rowKey row) = true
  · rw [if_pos hck]
    unfold acontains at hck ⊢
    rw [alookup_aupdate, if_pos rfl]
    cases hl : alookup st.linkMap (rowKey row) <;> simp_all
  · rw [if_neg hck]
    unfold acontains
    rw [alookup_aupdate, if_pos rfl, alookup_aset_self]
    simp

theorem foldl_linkMapInv (enabled : Bool) (rows : List Row) (st : BuildState)
    (h : linkMapInv st.linkMap) :
    linkMapInv (rows.foldl (buildGraphStep enabled) st).linkMap := by
  induction rows generalizing st with
  | nil => exact h
  | cons r rest ih =>
    exact ih _ (buildGraphStep_linkMapInv enabled st r h)

theorem foldl_linkMap_mono (enabled : Bool) (rows : List Row) (st : BuildState)
    (k : String) (h : acontains st.linkMap k = true) :
    acontains (rows.foldl (buildGraphStep enabled) st).linkMap k = true := by
  induction rows generalizing st with
  | nil => exact h
  | cons r rest ih =>
    exact ih _ (buildGraphStep_linkMap_mono enabled st r k h)

theorem foldl_linkMap_mem (enabled : Bool) (rows : List Row) (st : BuildState)
    (row : Row) (hmem : row ∈ rows)
    (h1 : isExcludedNode enabled (effSubjectUri row) = false)
    (h2 : isExcludedNode enabled (effObjectUri row) = false)
    (h3 : effSubjectUri row ≠ effObjectUri row) :
    acontains (rows.foldl (buildGraphStep enabled) st).linkMap (rowKey row) = true := by
  induction rows generalizing st with
  | nil => simp at hmem
  | cons r rest ih =>
    rcases List.mem_cons.mp hmem with hr | hr
    · subst hr
      exact foldl_linkMap_mono enabled rest _ _
        (buildGraphStep_linkMap_adds enabled st row h1 h2 h3)
    · exact ih _ hr

/-- C2: two rows sharing non-excluded subject and object URIs but differing in
property URI yield two distinct edges in the built graph, each carrying the
`(subject, property, object)` identity of its row. -/
theorem C2_edge_identity (enabled : Bool) (rows : List Row) (r1 r2 : Row)
    (hm1 : r1 ∈ rows) (hm2 : r2 ∈ rows)
    (hs : effSubjectUri r1 = effSubjectUri r2)
    (ho : effObjectUri r1 = effObjectUri r2)
    (hp : effPropertyUri r1 ≠ effPropertyUri r2)
    (hse : isExcludedNode enabled (effSubjectUri r1) = false)
    (hoe : isExcludedNode enabled (effObjectUri r1) = false)
    (hso : effSubjectUri r1 ≠ effObjectUri r1) :
    ∃ e1 ∈ (buildGraphData enabled rows).links,
      ∃ e2 ∈ (buildGraphData enabled rows).links,
        linkKey e1.source e1.property e1.target = rowKey r1 ∧
        linkKey e2.source e2.property e2.target = rowKey r2 ∧
        e1 ≠ e2 := by
  have hfold := fun (r : Row) hm hx hy hz =>
    foldl_linkMap_mem enabled rows { nodeMap := [], linkMap := [] } r hm hx hy hz
  have hinv := foldl_linkMapInv enabled rows { nodeMap := [], linkMap := [] }
    (by intro q hq; simp at hq)
  set st := rows.foldl (buildGraphStep enabled) { nodeMap := [], linkMap := [] } with hst
  have hc1 : acontains st.linkMap (rowKey r1) = true := hfold r1 hm1 hse hoe hso
  have hc2 : acontains st.linkMap (rowKey r2) = true :=
    hfold r2 hm2 (hs ▸ hse) (ho ▸ hoe) (hs ▸ ho ▸ hso)
  unfold acontains at hc1 hc2
  obtain ⟨v1, hv1⟩ : ∃ v, alookup st.linkMap (rowKey r1) = some v := by
    cases hl : alookup st.linkMap (rowKey r1) <;> simp_all
  obtain ⟨v2, hv2⟩ : ∃ v, alookup st.linkMap (rowKey r2) = some v := by
    cases hl : alookup st.linkMap (rowKey r2) <;> simp_all
  have hkne : rowKey r1 ≠ rowKey r2 := by
    unfold rowKey
    rw [← hs, ← ho]
    intro hk
    exact hp (linkKey_inj_prop hk)
  have hm1' := alookup_mem hv1
  have hm2' := alookup_mem hv2
  refine ⟨v1, ?_, v2, ?_, ?_, ?_, ?_⟩
  · show v1 ∈ (buildGraphData enabled rows).links
    unfold buildGraphData
    rw [← hst]
    exact List.mem_map.mpr ⟨(rowKey r1, v1), hm1', rfl⟩
  · show v2 ∈ (buildGraphData enabled rows).links
    unfold buildGraphData
    rw [← hst]
    exact List.mem_map.mpr ⟨(rowKey r2, v2), hm2', rfl⟩
  · exact (hinv _ hm1').symm
  · exact (hinv _ hm2').symm
  · intro hv
    apply hkne
    have k1 : rowKey r1 = linkKey v1.source v1.property v1.target := hinv _ hm1'
    have k2 : rowKey r2 = linkKey v2.source v2.property v2.target := hinv _ hm2'
    rw [k1, k2, hv]

/-- First concrete row for the C2 witness. -/
def c2row1 : Row :=
  { subject_uri := "http://x/A", subject_class := "A",
    object_uri := "http://x/B", object_class := "B",
    property_uri := "http://x/p1", property := "p1", source_dataset := "ds1" }

/-- Second concrete row for the C2 witness: same endpoints, different property. -/
def c2row2 : Row :=
  { subject_uri := "http://x/A", subject_class := "A",
    object_uri := "http://x/B", object_class := "B",
    property_uri := "http://x/p2", property := "p2", source_dataset := "ds1" }

set_option maxRecDepth 4096 in
/-- Witness for C2: two rows with the same endpoints and different properties. -/
theorem C2_witness :
    ∃ e1 ∈ (buildGraphData true [c2row1, c2row2]).links,
      ∃ e2 ∈ (buildGraphData true [c2row1, c2row2]).links,
        linkKey e1.source e1.property e1.target = rowKey c2row1 ∧
        linkKey e2.source e2.property e2.target = rowKey c2row2 ∧
        e1 ≠ e2 :=
  C2_edge_identity true [c2row1, c2row2] c2row1 c2row2 (by decide) (by decide)
    (by decide) (by decide) (by decide) (by decide) (by decide) (by decide)

/-! ## C8: edge offset assignment -/

/-- The links with a given pair key, tagged with their original positions
(counting from `i`): the reference shape of a `pairMap` group. -/
def idxFilter (k : String) : Nat → List Link → List (Nat × Link)
  | _, [] => []
  | i, l :: rest =>
    if linkPairKey l = k then (i, l) :: idxFilter k (i + 1) rest
    else idxFilter k (i + 1) rest

theorem idxFilter_cons (k : String) (i : Nat) (l : Link) (rest : List Link) :
    idxFilter k i (l :: rest) =
      if linkPairKey l = k then (i, l) :: idxFilter k (i + 1) rest
      else idxFilter k (i + 1) rest := rfl

theorem buildPairMap_lookup (links : List Link) :
    ∀ (m : List (String × List (Nat × Link))) (i : Nat) (k : String),
    alookup (buildPairMap m i links) k =
      match alookup m k with
      | some g => some (g ++ idxFilter k i links)
      | none =>
        if idxFilter k i links = [] then none else some (idxFilter k i links) := by
  induction links with
  | nil =>
    intro m i k
    cases halm : alookup m k <;> simp [buildPairMap, idxFilter, halm]
  | cons l rest ih =>
    intro m i k
    show alookup (buildPairMap (aupdate
      (if acontains m (linkPairKey l) = true then m
        else aset m (linkPairKey l) []) (linkPairKey l)
      (fun g => g ++ [(i, l)])) (i + 1) rest) k = _
    rw [ih]
    have hfe : idxFilter (linkPairKey l) i (l :: rest) =
        (i, l) :: idxFilter (linkPairKey l) (i + 1) rest := by
      rw [idxFilter_cons, if_pos rfl]
    by_cases hk : k = linkPairKey l
    · rw [hk]
      rw [alookup_aupdate, if_pos rfl]
      by_cases hck : acontains m (linkPairKey l) = true
      · rw [if_pos hck]
        obtain ⟨g, hg⟩ : ∃ g, alookup m (linkPairKey l) = some g := by
          unfold acontains at hck
          cases hl : alookup m (linkPairKey l) <;> simp_all
        rw [hg, hfe]
        show some ((g ++ [(i, l)]) ++ idxFilter (linkPairKey l) (i + 1) rest) =
          some (g ++ ((i, l) :: idxFilter (linkPairKey l) (i + 1) rest))
        rw [List.append_assoc]
        rfl
      · rw [if_neg hck, alookup_aset_self]
        have hnone : alookup m (linkPairKey l) = none := by
          unfold acontains at hck
          cases hl : alookup m (linkPairKey l) <;> simp_all
        rw [hnone, hfe]
        show some ((([] : List (Nat × Link)) ++ [(i, l)]) ++
            idxFilter (linkPairKey l) (i + 1) rest) =
          if ((i, l) :: idxFilter (linkPairKey l) (i + 1) rest) = [] then none
          else some ((i, l) :: idxFilter (linkPairKey l) (i + 1) rest)
        rw [if_neg (by simp)]
        rfl
    · rw [alookup_aupdate, if_neg hk]
      have hms : alookup (if acontains m (linkPairKey l) = true then m
          else aset m (linkPairKey l) []) k = alookup m k := by
        by_cases hck : acontains m (linkPairKey l) = true
        · rw [if_pos hck]
        · rw [if_neg hck, alookup_aset, if_neg hk]
      rw [hms]
      have hfilter : idxFilter k i (l :: rest) = idxFilter k (i + 1) rest := by
        rw [idxFilter_cons, if_neg (show ¬linkPairKey l = k from fun hh => hk hh.symm)]
      rw [← hfilter]

theorem buildPairMap_nodup (links : List Link) :
    ∀ (m : List (String × List (Nat × Link))) (i : Nat),
    (m.map Prod.fst).Nodup → ((buildPairMap m i links).map Prod.fst).Nodup := by
  induction links with
  | nil => intro m i h; exact h
  | cons l rest ih =>
    intro m i h
    show ((buildPairMap (aupdate
      (if acontains m (linkPairKey l) = true then m
        else aset m (linkPairKey l) []) (linkPairKey l)
      (fun g => g ++ [(i, l)])) (i + 1) rest).map Prod.fst).Nodup
    apply ih
    rw [keys_aupdate]
    by_cases hck : acontains m (linkPairKey l) = true
    · rw [if_pos hck]
      exact h
    · rw [if_neg hck, keys_aset, if_neg hck]
      rw [List.nodup_append]
      refine ⟨h, List.nodup_singleton _, ?_⟩
      intro a ha hb
      rw [List.mem_singleton] at hb
      subst hb
      rw [Bool.not_eq_true] at hck
      exact (acontains_false_iff m (linkPairKey l)).mp hck ha

theorem mem_alookup_of_nodup {α : Type} {m : List (String × α)} {k : String} {v : α}
    (hnd : (m.map Prod.fst).Nodup) (h : (k, v) ∈ m) : alookup m k = some v := by
  induction m with
  | nil => simp at h
  | cons p rest ih =>
    rw [List.map_cons, List.nodup_cons] at hnd
    rcases List.mem_cons.mp h with h' | h'
    · rw [alookup_cons, ← h']
      simp
    · rw [alookup_cons]
      have : p.1 ≠ k := by
        intro hh
        apply hnd.1
        rw [hh]
        exact List.mem_map.mpr ⟨(k, v), h', rfl⟩
      rw [if_neg this]
      exact ih hnd.2 h'

theorem idxFilter_mem {k : String} :
    ∀ {links : List Link} {i : Nat} {q : Nat × Link}, q ∈ idxFilter k i links →
      ∃ t, ∃ ht : t < links.length, q.1 = i + t ∧ q.2 = links.get ⟨t, ht⟩ ∧
        linkPairKey q.2 = k := by
  intro links
  induction links with
  | nil => intro i q h; simp [idxFilter] at h
  | cons l rest ih =>
    intro i q h
    unfold idxFilter at h
    by_cases hl : linkPairKey l = k
    · rw [if_pos hl] at h
      rcases List.mem_cons.mp h with h' | h'
      · exact ⟨0, by simp, by simp [h'], by simp [h'], by rw [h']; exact hl⟩
      · obtain ⟨t, ht, h1, h2, h3⟩ := ih h'
        exact ⟨t + 1, by simpa using Nat.succ_lt_succ ht,
          by rw [h1]; omega, by simpa using h2, h3⟩
    · rw [if_neg hl] at h
      obtain ⟨t, ht, h1, h2, h3⟩ := ih h
      exact ⟨t + 1, by simpa using Nat.succ_lt_succ ht,
        by rw [h1]; omega, by simpa using h2, h3⟩

theorem idxFilter_length {k : String} :
    ∀ (links : List Link) (i : Nat),
    (idxFilter k i links).length = links.countP (fun l => linkPairKey l == k) := by
  intro links
  induction links with
  | nil => intro i; rfl
  | cons l rest ih =>
    intro i
    unfold idxFilter
    by_cases hl : linkPairKey l = k
    · rw [if_pos hl, List.countP_cons_of_pos _ _ (by simp [hl])]
      simp [ih]
    · rw [if_neg hl, List.countP_cons_of_neg _ _ (by simp [hl])]
      exact ih (i + 1)

theorem idxFilter_split :
    ∀ (links : List Link) (i j : Nat) (hi : i < links.length),
      linkPairKey (links.get ⟨i, hi⟩) = linkPairKey (links.get ⟨i, hi⟩) →
    idxFilter (linkPairKey (links.get ⟨i, hi⟩)) j links =
      idxFilter (linkPairKey (links.get ⟨i, hi⟩)) j (links.take i) ++
        ((j + i, links.get ⟨i, hi⟩) ::
          idxFilter (linkPairKey (links.get ⟨i, hi⟩)) (j + i + 1) (links.drop (i + 1))) := by
  intro links
  induction links with
  | nil => intro i j hi; simp at hi
  | cons l rest ih =>
    intro i j hi _
    cases i with
    | zero =>
      show idxFilter (linkPairKey l) j (l :: rest) = _
      rw [idxFilter_cons, if_pos rfl]
      simp [idxFilter]
    | succ i' =>
      have hi' : i' < rest.length := by simpa using Nat.lt_of_succ_lt_succ hi
      have hget : (l :: rest).get ⟨i' + 1, hi⟩ = rest.get ⟨i', hi'⟩ := rfl
      rw [hget]
      have htake : (l :: rest).take (i' + 1) = l :: rest.take i' := rfl
      have hdrop : (l :: rest).drop (i' + 1 + 1) = rest.drop (i' + 1) := rfl
      rw [htake, hdrop]
      have harith1 : j + (i' + 1) = (j + 1) + i' := by omega
      rw [harith1]
      rw [idxFilter_cons, idxFilter_cons]
      by_cases hl : linkPairKey l = linkPairKey (rest.get ⟨i', hi'⟩)
      · rw [if_pos hl, if_pos hl, ih i' (j + 1) hi' rfl]
        simp [List.cons_append]
      · rw [if_neg hl, if_neg hl, ih i' (j + 1) hi' rfl]

theorem annotateGroup_find_none (count : Nat) :
    ∀ (A : List (Nat × Link)) (j i : Nat), (∀ a ∈ A, a.1 ≠ i) →
      (annotateGroup count j A).find? (fun a => a.1 == i) = none := by
  intro A
  induction A with
  | nil => intro j i _; rfl
  | cons a A' ih =>
    intro j i h
    show List.find? _ ((a.1, _) :: annotateGroup count (j + 1) A') = none
    rw [List.find?_cons_of_neg _ (by simp [h a (List.mem_cons_self a A')])]
    exact ih (j + 1) i (fun b hb => h b (List.mem_cons_of_mem a hb))

theorem annotateGroup_find (count : Nat) :
    ∀ (A : List (Nat × Link)) (j i : Nat) (x : Link) (B : List (Nat × Link)),
      (∀ a ∈ A, a.1 ≠ i) →
      (annotateGroup count j (A ++ (i, x) :: B)).find? (fun a => a.1 == i) =
        some (i, (((j + A.length : Nat) : Int) - ((count / 2 : Nat) : Int),
          j + A.length, count)) := by
  intro A
  induction A with
  | nil =>
    intro j i x B _
    rw [List.nil_append]
    show List.find? _ ((i, _) :: annotateGroup count (j + 1) B) = _
    rw [List.find?_cons_of_pos _ (by simp)]
    simp
  | cons a A' ih =>
    intro j i x B h
    rw [List.cons_append]
    show List.find? _ ((a.1, _) :: annotateGroup count (j + 1) (A' ++ (i, x) :: B)) = _
    rw [List.find?_cons_of_neg _ (by simp [h a (List.mem_cons_self a A')])]
    rw [ih (j + 1) i x B (fun b hb => h b (List.mem_cons_of_mem a hb))]
    have harith : (j + 1) + A'.length = j + (A'.length + 1) := by omega
    rw [harith]
    rfl

theorem find?_append_some {C : Type} (p : C → Bool) {l1 : List C} {v : C}
    (h : l1.find? p = some v) (l2 : List C) : (l1 ++ l2).find? p = some v := by
  induction l1 with
  | nil => simp [List.find?] at h
  | cons a rest ih =>
    by_cases hp : p a = true
    · rw [List.find?_cons_of_pos _ hp] at h
      rw [List.cons_append, List.find?_cons_of_pos _ hp]
      exact h
    · rw [List.find?_cons_of_neg _ hp] at h
      rw [List.cons_append, List.find?_cons_of_neg _ hp]
      exact ih h

theorem find?_append_none {C : Type} (p : C → Bool) {l1 : List C}
    (h : l1.find? p = none) (l2 : List C) : (l1 ++ l2).find? p = l2.find? p := by
  induction l1 with
  | nil => rfl
  | cons a rest ih =>
    by_cases hp : p a = true
    · rw [List.find?_cons_of_pos _ hp] at h
      simp at h
    · rw [List.find?_cons_of_neg _ hp] at h
      rw [List.cons_append, List.find?_cons_of_neg _ hp]
      exact ih h

theorem find?_join_of_unique {C : Type} (p : C → Bool) :
    ∀ (blocks : List (List C)) (b0 : List C) (v : C),
      b0 ∈ blocks → b0.find? p = some v →
      (∀ b ∈ blocks, b = b0 ∨ b.find? p = none) →
      (blocks.flatten).find? p = some v := by
  intro blocks
  induction blocks with
  | nil => intro b0 v h; simp at h
  | cons b bs ih =>
    intro b0 v hmem hfind hall
    rw [List.flatten_cons]
    rcases hall b (List.mem_cons_self b bs) with hb | hb
    · subst hb
      exact find?_append_some p hfind _
    · rw [find?_append_none p hb]
      rcases List.mem_cons.mp hmem with hb0 | hb0
      · rw [hb0] at hfind
        rw [hfind] at hb
        simp at hb
      · exact ih b0 v hb0 hfind (fun b' hb' => hall b' (List.mem_cons_of_mem b hb'))

theorem foldl_append_eq {A B : Type} (f : A → List B) :
    ∀ (xs : List A) (acc : List B),
      xs.foldl (fun a x => a ++ f x) acc = acc ++ (xs.map f).flatten := by
  intro xs
  induction xs with
  | nil => intro acc; simp
  | cons x rest ih =>
    intro acc
    rw [List.foldl_cons, ih, List.map_cons, List.flatten_cons, List.append_assoc]

theorem applyAssignments_length (asg : List (Nat × (Int × Nat × Nat))) :
    ∀ (links : List Link) (i0 : Nat),
      (applyAssignments asg i0 links).length = links.length := by
  intro links
  induction links with
  | nil => intro i0; rfl
  | cons l rest ih =>
    intro i0
    show (_ :: applyAssignments asg (i0 + 1) rest).length = _
    rw [List.length_cons, ih (i0 + 1), List.length_cons]

theorem applyAssignments_get? (asg : List (Nat × (Int × Nat × Nat))) :
    ∀ (links : List Link) (i0 t : Nat) (ht : t < links.length),
      (applyAssignments asg i0 links).get? t = some
        (match (asg.find? (fun a => a.1 == i0 + t)).map (·.2) with
         | some (off, idx, cnt) =>
           { link := links.get ⟨t, ht⟩, edgeOffset := off
           , edgeIndex := idx, edgeCount := cnt }
         | none =>
           { link := links.get ⟨t, ht⟩, edgeOffset := 0
           , edgeIndex := 0, edgeCount := 0 }) := by
  intro links
  induction links with
  | nil => intro i0 t ht; simp at ht
  | cons l rest ih =>
    intro i0 t ht
    cases t with
    | zero =>
      show ((match (asg.find? (fun a => a.1 == i0)).map (·.2) with
         | some (off, idx, cnt) =>
           ({ link := l, edgeOffset := off, edgeIndex := idx, edgeCount := cnt } : OffsetLink)
         | none => { link := l, edgeOffset := 0, edgeIndex := 0, edgeCount := 0 }) ::
        applyAssignments asg (i0 + 1) rest).get? 0 = _
      rw [List.get?_cons_zero]
      rw [show i0 + 0 = i0 from rfl]
      rfl
    | succ t' =>
      have ht' : t' < rest.length := by simpa using Nat.lt_of_succ_lt_succ ht
      show (_ :: applyAssignments asg (i0 + 1) rest).get? (t' + 1) = _
      rw [List.get?_cons_succ, ih (i0 + 1) t' ht']
      have harith : (i0 + 1) + t' = i0 + (t' + 1) := by omega
      rw [harith]
      rfl

theorem pm_entry_eq (links : List Link) {k' : String} {g' : List (Nat × Link)}
    (h : (k', g') ∈ buildPairMap [] 0 links) : g' = idxFilter k' 0 links := by
  have hl := mem_alookup_of_nodup (buildPairMap_nodup links [] 0 (by simp)) h
  rw [buildPairMap_lookup] at hl
  have hnil : alookup ([] : List (String × List (Nat × Link))) k' = none := rfl
  rw [hnil] at hl
  by_cases hflt : idxFilter k' 0 links = []
  · rw [show (match (none : Option (List (Nat × Link))) with
      | some g => some (g ++ idxFilter k' 0 links)
      | none => if idxFilter k' 0 links = [] then none
          else some (idxFilter k' 0 links)) =
        (if idxFilter k' 0 links = [] then none else some (idxFilter k' 0 links))
      from rfl, if_pos hflt] at hl
    simp at hl
  · rw [show (match (none : Option (List (Nat × Link))) with
      | some g => some (g ++ idxFilter k' 0 links)
      | none => if idxFilter k' 0 links = [] then none
          else some (idxFilter k' 0 links)) =
        (if idxFilter k' 0 links = [] then none else some (idxFilter k' 0 links))
      from rfl, if_neg hflt] at hl
    exact (Option.some.injEq _ _ ▸ hl).symm

theorem charListLe_total : ∀ as bs : List Char,
    charListLe as bs = true ∨ charListLe bs as = true := by
  intro as
  induction as with
  | nil => intro bs; left; cases bs <;> rfl
  | cons a as' ih =>
    intro bs
    cases bs with
    | nil => right; rfl
    | cons b bs' =>
      show (if a.toNat < b.toNat then true
        else if b.toNat < a.toNat then false else charListLe as' bs') = true ∨
        (if b.toNat < a.toNat then true
        else if a.toNat < b.toNat then false else charListLe bs' as') = true
      rcases Nat.lt_trichotomy a.toNat b.toNat with hab | hab | hab
      · left
        rw [if_pos hab]
      · rw [if_neg (by omega), if_neg (by omega), if_neg (by omega), if_neg (by omega)]
        exact ih bs'
      · right
        rw [if_pos hab]

theorem charListLe_antisymm : ∀ as bs : List Char,
    charListLe as bs = true → charListLe bs as = true → as = bs := by
  intro as
  induction as with
  | nil =>
    intro bs h1 h2
    cases bs with
    | nil => rfl
    | cons b bs' => simp [charListLe] at h2
  | cons a as' ih =>
    intro bs h1 h2
    cases bs with
    | nil => simp [charListLe] at h1
    | cons b bs' =>
      have h1' : (if a.toNat < b.toNat then true
          else if b.toNat < a.toNat then false else charListLe as' bs') = true := h1
      have h2' : (if b.toNat < a.toNat then true
          else if a.toNat < b.toNat then false else charListLe bs' as') = true := h2
      rcases Nat.lt_trichotomy a.toNat b.toNat with hab | hab | hab
      · rw [if_neg (by omega), if_pos hab] at h2'
        simp at h2'
      · rw [if_neg (by omega), if_neg (by omega)] at h1'
        rw [if_neg (by omega), if_neg (by omega)] at h2'
        have hc : a = b := by
          apply Char.ext
          exact UInt32.toNat.inj hab
        rw [hc, ih bs' h1' h2']
      · rw [if_pos hab] at h2'
        rw [if_neg (by omega), if_pos hab] at h1'
        simp at h1'

theorem pairKey_comm (s t : String) : pairKey s t = pairKey t s := by
  unfold pairKey
  by_cases h1 : strLe s t = true
  · by_cases h2 : strLe t s = true
    · have hst : s = t := by
        have hd := charListLe_antisymm s.data t.data h1 h2
        cases s
        cases t
        exact congrArg String.mk hd
      rw [if_pos h1, if_pos h2, hst]
    · rw [if_pos h1, if_neg h2]
  · have h2 : strLe t s = true := by
      rcases charListLe_total s.data t.data with h | h
      · exact absurd h h1
      · exact h
    rw [if_neg h1, if_pos h2]

theorem pm_lookup_eq (links : List Link) (k : String)
    (h : idxFilter k 0 links ≠ []) :
    alookup (buildPairMap [] 0 links) k = some (idxFilter k 0 links) := by
  rw [buildPairMap_lookup]
  have hnil : alookup ([] : List (String × List (Nat × Link))) k = none := rfl
  rw [hnil]
  rw [show (match (none : Option (List (Nat × Link))) with
    | some g => some (g ++ idxFilter k 0 links)
    | none => if idxFilter k 0 links = [] then none
        else some (idxFilter k 0 links)) =
      (if idxFilter k 0 links = [] then none else some (idxFilter k 0 links))
    from rfl, if_neg h]

theorem assignments_find_eq (links : List Link) (i : Nat) (hi : i < links.length) :
    ((((buildPairMap [] 0 links).map
        (fun p => annotateGroup p.2.length 0 p.2)).flatten).find?
      (fun a => a.1 == i)) =
      some (i,
        (((idxFilter (linkPairKey (links.get ⟨i, hi⟩)) 0 (links.take i)).length : Int) -
          (((idxFilter (linkPairKey (links.get ⟨i, hi⟩)) 0 links).length / 2 : Nat) : Int),
        (idxFilter (linkPairKey (links.get ⟨i, hi⟩)) 0 (links.take i)).length,
        (idxFilter (linkPairKey (links.get ⟨i, hi⟩)) 0 links).length)) := by
  have hsplit := idxFilter_split links i 0 hi rfl
  have hAne : ∀ a ∈ idxFilter (linkPairKey (links.get ⟨i, hi⟩)) 0 (links.take i),
      a.1 ≠ i := by
    intro a ha
    obtain ⟨t, ht, h1, -, -⟩ := idxFilter_mem ha
    rw [List.length_take] at ht
    omega
  have hgne : idxFilter (linkPairKey (links.get ⟨i, hi⟩)) 0 links ≠ [] := by
    rw [hsplit]
    simp
  apply find?_join_of_unique (fun a => a.1 == i) _
    (annotateGroup (idxFilter (linkPairKey (links.get ⟨i, hi⟩)) 0 links).length 0
      (idxFilter (linkPairKey (links.get ⟨i, hi⟩)) 0 links))
  · exact List.mem_map.mpr
      ⟨(linkPairKey (links.get ⟨i, hi⟩), idxFilter (linkPairKey (links.get ⟨i, hi⟩)) 0 links),
        alookup_mem (pm_lookup_eq links _ hgne), rfl⟩
  · rw [show idxFilter (linkPairKey (links.get ⟨i, hi⟩)) 0 links =
        idxFilter (linkPairKey (links.get ⟨i, hi⟩)) 0 (links.take i) ++
          ((0 + i, links.get ⟨i, hi⟩) ::
            idxFilter (linkPairKey (links.get ⟨i, hi⟩)) (0 + i + 1) (links.drop (i + 1)))
      from hsplit]
    rw [show (0 : Nat) + i = i from Nat.zero_add i]
    rw [annotateGroup_find _ _ 0 i _ _ hAne]
    rw [show (0 : Nat) + (idxFilter (linkPairKey (links.get ⟨i, hi⟩)) 0 (links.take i)).length =
      (idxFilter (linkPairKey (links.get ⟨i, hi⟩)) 0 (links.take i)).length from Nat.zero_add _]
  · intro b hb
    obtain ⟨q, hpmem, hbeq⟩ := List.mem_map.mp hb
    by_cases hkk : q.1 = linkPairKey (links.get ⟨i, hi⟩)
    · left
      rw [← hbeq]
      have hge : q.2 = idxFilter (linkPairKey (links.get ⟨i, hi⟩)) 0 links := by
        have := pm_entry_eq links (show (q.1, q.2) ∈ buildPairMap [] 0 links from hpmem)
        rw [this, hkk]
      rw [hge]
    · right
      rw [← hbeq]
      apply annotateGroup_find_none
      intro a ha hai
      have hge : q.2 = idxFilter q.1 0 links :=
        pm_entry_eq links (show (q.1, q.2) ∈ buildPairMap [] 0 links from hpmem)
      rw [hge] at ha
      obtain ⟨t, ht, h1, h2, h3⟩ := idxFilter_mem ha
      have hti : t = i := by omega
      subst hti
      apply hkk
      rw [← h3, h2]

/-- C8: `assignEdgeOffsets` groups by the unordered pair key (so swapping
`source` and `target` keeps an edge in its group), and within each group the
`i`-th link in encounter order gets `edgeIndex` = number of earlier same-key
links, `edgeCount` = group size, and `edgeOffset = edgeIndex - floor(edgeCount/2)`. -/
theorem C8_offsets (links : List Link) :
    (∀ l : Link, linkPairKey { l with source := l.target, target := l.source } =
      linkPairKey l) ∧
    (assignEdgeOffsets links).length = links.length ∧
    (∀ (i : Nat) (hi : i < links.length),
      (assignEdgeOffsets links).get? i = some
        { link := links.get ⟨i, hi⟩
        , edgeOffset :=
            (((links.take i).countP
              (fun l => linkPairKey l == linkPairKey (links.get ⟨i, hi⟩)) : Nat) : Int) -
            ((links.countP
              (fun l => linkPairKey l == linkPairKey (links.get ⟨i, hi⟩)) / 2 : Nat) : Int)
        , edgeIndex := (links.take i).countP
            (fun l => linkPairKey l == linkPairKey (links.get ⟨i, hi⟩))
        , edgeCount := links.countP
            (fun l => linkPairKey l == linkPairKey (links.get ⟨i, hi⟩)) }) := by
  refine ⟨?_, ?_, ?_⟩
  · intro l
    show pairKey l.target l.source = pairKey l.source l.target
    exact pairKey_comm l.target l.source
  · unfold assignEdgeOffsets
    exact applyAssignments_length _ links 0
  · intro i hi
    unfold assignEdgeOffsets
    rw [applyAssignments_get? _ links 0 i hi]
    rw [foldl_append_eq (fun p => annotateGroup p.2.length 0 p.2)
      (buildPairMap [] 0 links) []]
    rw [List.nil_append]
    simp only [Nat.zero_add]
    rw [assignments_find_eq links i hi]
    simp only [Option.map_some']
    rw [idxFilter_length (links.take i) 0, idxFilter_length links 0]

/-- Concrete links for the C8 witness: three edges in one unordered pair group,
one of them stored in the opposite direction. -/
def c8links : List Link :=
  [ { source := "http://x/A", target := "http://x/B", property := "http://x/p1",
      label := "p1", datasets := ["ds1"] }
  , { source := "http://x/B", target := "http://x/A", property := "http://x/p2",
      label := "p2", datasets := ["ds1"] }
  , { source := "http://x/A", target := "http://x/B", property := "http://x/p3",
      label := "p3", datasets := ["ds1"] } ]

/-- Witness for C8: the reversed edge lands in the same group and the group of
three receives offsets -1, 0, 1. -/
theorem C8_witness :
    (assignEdgeOffsets c8links).map (fun o => o.edgeOffset) = [-1, 0, 1] ∧
    (assignEdgeOffsets c8links).map (fun o => o.edgeIndex) = [0, 1, 2] ∧
    (assignEdgeOffsets c8links).map (fun o => o.edgeCount) = [3, 3, 3] := by
  have h0 := (C8_offsets c8links).2.2 0 (by decide)
  have h1 := (C8_offsets c8links).2.2 1 (by decide)
  have h2 := (C8_offsets c8links).2.2 2 (by decide)
  refine ⟨?_, ?_, ?_⟩ <;> decide

/-! ## C7: removing all paths versus a fresh `DiagramState` -/

theorem removePath_of_nonempty (s : DiagramState) (h : s.paths ≠ []) :
    removePath s 0 = rebuildHighlightMaps { s with paths := s.paths.tail } := by
  unfold removePath
  have hlen : 0 < s.paths.length := List.length_pos.mpr h
  rw [if_neg (by omega)]
  congr 1
  cases hp : s.paths with
  | nil => exact absurd hp h
  | cons a rest => simp [hp, List.eraseIdx]

theorem rebuildStep_fields (s acc : DiagramState) (p : StoredPath) :
    (rebuildStep s acc p).paths = acc.paths ∧
    (rebuildStep s acc p).nextColorIndex = acc.nextColorIndex ∧
    (rebuildStep s acc p).pathColors = acc.pathColors := by
  unfold rebuildStep
  by_cases hp : p.path.isEmpty = true
  · rw [if_pos hp]
    exact ⟨rfl, rfl, rfl⟩
  · rw [if_neg hp]
    exact ⟨rfl, rfl, rfl⟩

theorem foldl_rebuildStep_fields (s : DiagramState) :
    ∀ (ps : List StoredPath) (ini : DiagramState),
      ((ps.foldl (rebuildStep s) ini).paths = ini.paths ∧
       (ps.foldl (rebuildStep s) ini).nextColorIndex = ini.nextColorIndex ∧
       (ps.foldl (rebuildStep s) ini).pathColors = ini.pathColors) := by
  intro ps
  induction ps with
  | nil => intro ini; exact ⟨rfl, rfl, rfl⟩
  | cons p rest ih =>
    intro ini
    rw [List.foldl_cons]
    obtain ⟨h1, h2, h3⟩ := ih (rebuildStep s ini p)
    obtain ⟨g1, g2, g3⟩ := rebuildStep_fields s ini p
    exact ⟨h1.trans g1, h2.trans g2, h3.trans g3⟩

theorem rebuildHighlightMaps_fields (s : DiagramState) :
    (rebuildHighlightMaps s).paths = s.paths ∧
    (rebuildHighlightMaps s).nextColorIndex = s.nextColorIndex ∧
    (rebuildHighlightMaps s).pathColors = s.pathColors := by
  unfold rebuildHighlightMaps
  exact foldl_rebuildStep_fields s s.paths _

theorem rebuildHighlightMaps_empty (s : DiagramState) (h : s.paths = []) :
    rebuildHighlightMaps s = { s with highlightedNodes := [], highlightedEdges := [] } := by
  unfold rebuildHighlightMaps
  rw [h]
  rfl

/-- Claim C7 as stated is false: removing the only path leaves
`nextColorIndex = 1`, not the fresh state's 0, because `removePath` never
resets the color counter (only `clearPaths` does). -/
theorem C7_counterexample :
    (removePath
      ((addPathGroup initDiagramState
        [{ path := ["http://x/A", "http://x/B"],
           edges := [{ source := some "http://x/A", target := some "http://x/B",
                       property := "http://x/p1", datasets := ["ds1"] }],
           fromLabel := "A", toLabel := "B" }]).1) 0).paths = [] ∧
    (removePath
      ((addPathGroup initDiagramState
        [{ path := ["http://x/A", "http://x/B"],
           edges := [{ source := some "http://x/A", target := some "http://x/B",
                       property := "http://x/p1", datasets := ["ds1"] }],
           fromLabel := "A", toLabel := "B" }]).1) 0).nextColorIndex = 1 ∧
    initDiagramState.nextColorIndex = 0 ∧
    removePath
      ((addPathGroup initDiagramState
        [{ path := ["http://x/A", "http://x/B"],
           edges := [{ source := some "http://x/A", target := some "http://x/B",
                       property := "http://x/p1", datasets := ["ds1"] }],
           fromLabel := "A", toLabel := "B" }]).1) 0 ≠ initDiagramState := by
  refine ⟨by decide, by decide, by decide, by decide⟩

/-- C7 (amended): repeatedly calling `removePath(0)` until the paths list is
empty leaves empty paths and empty highlight maps — the `clearPaths()` state —
except that `nextColorIndex` retains its value instead of resetting to 0. -/
theorem C7_remove_all (s : DiagramState) (h : s.paths ≠ []) :
    removeAllPaths s =
      { clearPaths s with nextColorIndex := s.nextColorIndex } := by
  unfold removeAllPaths
  obtain ⟨n, hn⟩ : ∃ n, s.paths.length = n := ⟨s.paths.length, rfl⟩
  rw [hn]
  induction n generalizing s with
  | zero => exact absurd (List.length_eq_zero.mp hn) h
  | succ n' ih =>
    show removeFirstRepeat (removePath s 0) n' = _
    rw [removePath_of_nonempty s h]
    have hfields := rebuildHighlightMaps_fields { s with paths := s.paths.tail }
    cases n' with
    | zero =>
      show rebuildHighlightMaps { s with paths := s.paths.tail } = _
      have htail : s.paths.tail = [] := by
        cases hp : s.paths with
        | nil => exact absurd hp h
        | cons a rest =>
          rw [hp] at hn
          simp at hn
          simp [hp, hn]
      rw [rebuildHighlightMaps_empty _ (by simpa using htail)]
      unfold clearPaths
      rw [show ({ s with paths := s.paths.tail } :
        DiagramState).highlightedNodes = s.highlightedNodes from rfl]
      simp [htail]
    | succ n'' =>
      have hne : (rebuildHighlightMaps { s with paths := s.paths.tail }).paths ≠ [] := by
        rw [hfields.1]
        show s.paths.tail ≠ []
        cases hp : s.paths with
        | nil => exact absurd hp h
        | cons a rest =>
          rw [hp] at hn
          simp at hn
          simp [hp]
          intro hrest
          rw [hrest] at hn
          simp at hn
      have hlen : (rebuildHighlightMaps { s with paths := s.paths.tail }).paths.length
          = n'' + 1 := by
        rw [hfields.1]
        show s.paths.tail.length = n'' + 1
        rw [List.length_tail, hn]
        omega
      have := ih (rebuildHighlightMaps { s with paths := s.paths.tail }) hne hlen
      rw [this]
      unfold clearPaths
      rw [hfields.2.1]
      have hcolors := hfields.2.2
      rw [show (rebuildHighlightMaps { s with paths := s.paths.tail }).pathColors
        = s.pathColors from hcolors]

/-- Witness for C7's amended theorem at a concrete one-path state. -/
theorem C7_witness :
    ((addPathGroup initDiagramState
      [{ path := ["http://x/A", "http://x/B"],
         edges := [{ source := some "http://x/A", target := some "http://x/B",
                     property := "http://x/p1", datasets := ["ds1"] }],
         fromLabel := "A", toLabel := "B" }]).1).paths ≠ [] ∧
    removeAllPaths ((addPathGroup initDiagramState
      [{ path := ["http://x/A", "http://x/B"],
         edges := [{ source := some "http://x/A", target := some "http://x/B",
                     property := "http://x/p1", datasets := ["ds1"] }],
         fromLabel := "A", toLabel := "B" }]).1) =
      { clearPaths ((addPathGroup initDiagramState
          [{ path := ["http://x/A", "http://x/B"],
             edges := [{ source := some "http://x/A", target := some "http://x/B",
                         property := "http://x/p1", datasets := ["ds1"] }],
             fromLabel := "A", toLabel := "B" }]).1) with
        nextColorIndex := ((addPathGroup initDiagramState
          [{ path := ["http://x/A", "http://x/B"],
             edges := [{ source := some "http://x/A", target := some "http://x/B",
                         property := "http://x/p1", datasets := ["ds1"] }],
             fromLabel := "A", toLabel := "B" }]).1).nextColorIndex } :=
  ⟨by decide, C7_remove_all _ (by decide)⟩

/-! ## C6: bounds on `findAllPaths` -/

/-- A path acceptable to the claim: from `startId` to `endId`, within the depth
bound, with no repeated node. -/
def GoodPath (startId endId : String) (maxDepth : Nat) (p : List String) : Prop :=
  p.head? = some startId ∧ p.getLast? = some endId ∧ p.length ≤ maxDepth ∧ p.Nodup

/-- The accumulator invariant of the DFS. -/
def dfsAccOk (startId endId : String) (maxPaths maxDepth : Nat)
    (acc : List (List String)) : Prop :=
  acc.length ≤ maxPaths ∧ ∀ p ∈ acc, GoodPath startId endId maxDepth p

/-- Specification of `dfsVisit` at a given fuel. -/
def VisitSpec (adj : List (String × List String)) (startId endId : String)
    (maxPaths maxDepth fuel : Nat) : Prop :=
  ∀ (currentId : String) (path visited : List String) (acc : List (List String)),
    dfsAccOk startId endId maxPaths maxDepth acc →
    path ≠ [] → path.head? = some startId → path.Nodup →
    (∀ v ∈ path.dropLast, visited.contains v = true) →
    path.getLast? = some currentId →
    dfsAccOk startId endId maxPaths maxDepth
      (dfsVisit adj endId maxPaths maxDepth fuel currentId path visited acc)

/-- Specification of `dfsNbrs` at a given fuel. -/
def NbrsSpec (adj : List (String × List String)) (startId endId : String)
    (maxPaths maxDepth fuel : Nat) : Prop :=
  ∀ (nbrs : List String) (path visited : List String) (acc : List (List String)),
    dfsAccOk startId endId maxPaths maxDepth acc →
    path ≠ [] → path.head? = some startId → path.Nodup →
    (∀ v ∈ path, visited.contains v = true) →
    dfsAccOk startId endId maxPaths maxDepth
      (dfsNbrs adj endId maxPaths maxDepth fuel nbrs path visited acc)

theorem mem_dropLast_or_eq_getLast {p : List String} (hne : p ≠ []) {v : String}
    (hv : v ∈ p) {c : String} (hlast : p.getLast? = some c) :
    v ∈ p.dropLast ∨ v = c := by
  have hdecomp := List.dropLast_append_getLast hne
  have hc : p.getLast hne = c := by
    have hh := List.getLast?_eq_getLast p hne
    rw [hh] at hlast
    exact Option.some.inj hlast
  rw [← hdecomp] at hv
  rcases List.mem_append.mp hv with h | h
  · exact Or.inl h
  · right
    rw [← hc]
    simpa using h

theorem head?_append_singleton {p : List String} (hne : p ≠ []) (n : String) :
    (p ++ [n]).head? = p.head? := by
  cases p with
  | nil => exact absurd rfl hne
  | cons a rest => rfl

theorem nbrsSpec_of_visitSpec (adj : List (String × List String))
    (startId endId : String) (maxPaths maxDepth fuel : Nat)
    (hv : VisitSpec adj startId endId maxPaths maxDepth fuel) :
    NbrsSpec adj startId endId maxPaths maxDepth fuel := by
  intro nbrs
  induction nbrs with
  | nil =>
    intro path visited acc hacc _ _ _ _
    simp only [dfsNbrs]
    exact hacc
  | cons n rest ih =>
    intro path visited acc hacc hne hhead hnodup hvis
    show dfsAccOk startId endId maxPaths maxDepth
      (dfsNbrs adj endId maxPaths maxDepth fuel (n :: rest) path visited acc)
    simp only [dfsNbrs]
    by_cases hvisn : visited.contains n = true
    · rw [if_pos hvisn]
      exact ih path visited acc hacc hne hhead hnodup hvis
    · rw [if_neg hvisn]
      have hmemn : n ∉ path := by
        intro hmem
        exact hvisn (hvis n hmem)
      have hacc' : dfsAccOk startId endId maxPaths maxDepth
          (dfsVisit adj endId maxPaths maxDepth fuel n (path ++ [n]) visited acc) := by
        apply hv
        · exact hacc
        · simp
        · rw [head?_append_singleton hne]
          exact hhead
        · rw [List.nodup_append]
          exact ⟨hnodup, List.nodup_singleton n,
            fun a ha hb => hmemn ((List.mem_singleton.mp hb) ▸ ha)⟩
        · rw [List.dropLast_concat]
          exact hvis
        · exact List.getLast?_concat path
      by_cases hful : (dfsVisit adj endId maxPaths maxDepth fuel n
          (path ++ [n]) visited acc).length ≥ maxPaths
      · rw [if_pos hful]
        exact hacc'
      · rw [if_neg hful]
        exact ih path visited _ hacc' hne hhead hnodup hvis

theorem visitSpec_all (adj : List (String × List String)) (startId endId : String)
    (maxPaths maxDepth : Nat) :
    ∀ fuel, VisitSpec adj startId endId maxPaths maxDepth fuel := by
  intro fuel
  induction fuel with
  | zero =>
    intro currentId path visited acc hacc _ _ _ _ _
    simp only [dfsVisit]
    exact hacc
  | succ n ih =>
    have hnbrs := nbrsSpec_of_visitSpec adj startId endId maxPaths maxDepth n ih
    intro currentId path visited acc hacc hne hhead hnodup hvis hlast
    show dfsAccOk startId endId maxPaths maxDepth
      (dfsVisit adj endId maxPaths maxDepth (n + 1) currentId path visited acc)
    simp only [dfsVisit]
    by_cases h1 : acc.length ≥ maxPaths
    · rw [if_pos h1]
      exact hacc
    · rw [if_neg h1]
      by_cases h2 : path.length > maxDepth
      · rw [if_pos h2]
        exact hacc
      · rw [if_neg h2]
        by_cases h3 : currentId = endId
        · rw [if_pos h3]
          constructor
          · rw [List.length_append]
            simp only [List.length_singleton]
            omega
          · intro p hp
            rcases List.mem_append.mp hp with hp | hp
            · exact hacc.2 p hp
            · rw [List.mem_singleton.mp hp]
              exact ⟨hhead, by rw [hlast, h3], by omega, hnodup⟩
        · rw [if_neg h3]
          apply hnbrs
          · exact hacc
          · exact hne
          · exact hhead
          · exact hnodup
          · intro v hvmem
            rcases mem_dropLast_or_eq_getLast hne hvmem hlast with hcase | hcase
            · have hv2 : v ∈ visited := by simpa using hvis v hcase
              simp [List.contains_cons, hv2]
            · simp [List.contains_cons, hcase]

/-- C6: `findAllPaths` returns at most `maxPaths` paths; every returned path
starts at `startId`, ends at `endId`, has at most `maxDepth` nodes and repeats
no node (the backtracking visited set is path-scoped), so the bounded search
terminates. -/
theorem C6_findAllPaths_bounded (links : List Link) (startId endId : String)
    (maxPaths maxDepth : Nat) :
    (findAllPaths links startId endId maxPaths maxDepth).length ≤ maxPaths ∧
    ∀ p ∈ findAllPaths links startId endId maxPaths maxDepth,
      p.head? = some startId ∧ p.getLast? = some endId ∧
        p.length ≤ maxDepth ∧ p.Nodup := by
  have h := visitSpec_all (buildAdjacency links) startId endId maxPaths maxDepth
    (maxDepth + 1) startId [startId] [] []
    ⟨by simp, by intro p hp; simp at hp⟩
    (by simp) rfl (by simp) (by intro v hv; simp at hv) rfl
  exact ⟨h.1, fun p hp => h.2 p hp⟩

/-- Witness for C6 on a concrete diamond graph. -/
theorem C6_witness :
    (findAllPaths c8links "http://x/A" "http://x/B" 50 10).length ≤ 50 ∧
    (["http://x/A", "http://x/B"] ∈ findAllPaths c8links "http://x/A" "http://x/B" 50 10 →
      (["http://x/A", "http://x/B"] : List String).Nodup) :=
  ⟨(C6_findAllPaths_bounded c8links "http://x/A" "http://x/B" 50 10).1,
   fun hmem => ((C6_findAllPaths_bounded c8links "http://x/A" "http://x/B" 50 10).2
     _ hmem).2.2.2⟩

/-! ## C1: directionality of the compiled triple pattern -/

/-- C1: the relational triple pattern emitted for a consecutive pair `(from,
to)` (always the last emission of `pairEmissions`) orients subject and object
by the stored edge's own `source`/`target`, not by traversal order: a forward
edge yields `?from <pred> ?to`, a reverse edge yields `?to <pred> ?from`. -/
theorem C1_directionality (nodes : List GNodeOut)
    (sourcesData : List (String × SourceInfo)) (primaryEndpoint : String)
    (requireType : Bool) (nodeVarMap : List (String × String))
    (pathIdx i : Nat) (fromId toId : String) (edge : PathEdge) :
    (edge.source = some fromId ∧ edge.target = some toId →
      ∃ ep g, (pairEmissions nodes sourcesData primaryEndpoint requireType
          nodeVarMap pathIdx i fromId toId edge).getLast? =
        some (ep, g, "?" ++ (alookup nodeVarMap fromId).getD "" ++ " " ++
          predSparql edge pathIdx i ++ " ?" ++ (alookup nodeVarMap toId).getD "" ++ " .")) ∧
    (edge.source = some toId ∧ edge.target = some fromId ∧ fromId ≠ toId →
      ∃ ep g, (pairEmissions nodes sourcesData primaryEndpoint requireType
          nodeVarMap pathIdx i fromId toId edge).getLast? =
        some (ep, g, "?" ++ (alookup nodeVarMap toId).getD "" ++ " " ++
          predSparql edge pathIdx i ++ " ?" ++ (alookup nodeVarMap fromId).getD "" ++ " .")) := by
  constructor
  · rintro ⟨hs, ht⟩
    unfold pairEmissions
    have hfwd : (edge.source == some fromId && edge.target == some toId) = true := by
      simp [hs, ht]
    rw [hfwd]
    exact ⟨_, _, List.getLast?_concat _⟩
  · rintro ⟨hs, ht, hne⟩
    unfold pairEmissions
    have hfwd : (edge.source == some fromId && edge.target == some toId) = false := by
      rw [hs]
      simp only [Bool.and_eq_false_iff]
      left
      simp [Ne.symm hne]
    rw [hfwd]
    exact ⟨_, _, List.getLast?_concat _⟩

/-- A reverse-stored edge for the C1 witness. -/
def c1edge : PathEdge :=
  { source := some "http://x/B", target := some "http://x/A",
    property := "http://x/p1", datasets := [] }

/-- Witness for C1: a reverse-stored edge emits `?b <p> ?a` for traversal a→b. -/
theorem C1_witness :
    (∃ ep g, (pairEmissions [] [] "http://e1/sparql" false
        [("http://x/A", "a"), ("http://x/B", "b")] 0 0
        "http://x/A" "http://x/B" c1edge).getLast? =
      some (ep, g, "?" ++ (alookup [("http://x/A", "a"), ("http://x/B", "b")]
          "http://x/B").getD "" ++ " " ++
        predSparql c1edge 0 0 ++ " ?" ++
        (alookup [("http://x/A", "a"), ("http://x/B", "b")] "http://x/A").getD "" ++ " .")) :=
  (C1_directionality [] [] "http://e1/sparql" false
    [("http://x/A", "a"), ("http://x/B", "b")] 0 0 "http://x/A" "http://x/B"
    c1edge).2 ⟨rfl, rfl, by decide⟩

/-! ## C3: shape of the compiled federated query -/

theorem keys_addPattern (m : EPMap) (ep : String) (g : Option String) (pat : String) :
    (addPattern m ep g pat).map Prod.fst =
      if acontains (m : List (String × List (String × List String))) ep then
        (m : List (String × List (String × List String))).map Prod.fst
      else (m : List (String × List (String × List String))).map Prod.fst ++ [ep] := by
  unfold addPattern
  rw [keys_aupdate]
  by_cases hc : acontains (m : List (String × List (String × List String))) ep = true
  · rw [if_pos hc, if_pos hc]
  · rw [if_neg hc, if_neg hc, keys_aset, if_neg hc]

theorem nodup_addPattern (m : EPMap) (ep : String) (g : Option String) (pat : String)
    (h : ((m : List (String × List (String × List String))).map Prod.fst).Nodup) :
    ((addPattern m ep g pat).map Prod.fst).Nodup := by
  rw [keys_addPattern]
  by_cases hc : acontains (m : List (String × List (String × List String))) ep = true
  · rw [if_pos hc]
    exact h
  · rw [if_neg hc]
    rw [List.nodup_append]
    refine ⟨h, List.nodup_singleton _, ?_⟩
    intro a ha hb
    rw [List.mem_singleton] at hb
    subst hb
    rw [Bool.not_eq_true, acontains_false_iff] at hc
    exact hc ha

theorem nodup_addEmissions (l : List (String × Option String × String)) :
    ∀ m : EPMap,
      ((m : List (String × List (String × List String))).map Prod.fst).Nodup →
      ((addEmissions m l).map Prod.fst).Nodup := by
  induction l with
  | nil => intro m h; exact h
  | cons e rest ih =>
    intro m h
    exact ih _ (nodup_addPattern m e.1 e.2.1 e.2.2 h)

theorem nodup_processPairs (gd : GraphData) (sourcesData : List (String × SourceInfo))
    (primaryEndpoint : String) (requireType : Bool)
    (nodeVarMap : List (String × String)) (storedEdges : List PathEdge)
    (pathIdx : Nat) :
    ∀ (pairs : List (String × String)) (m : EPMap) (i : Nat),
      ((m : List (String × List (String × List String))).map Prod.fst).Nodup →
      ((processPairs gd sourcesData primaryEndpoint requireType nodeVarMap storedEdges
          pathIdx m i pairs).map Prod.fst).Nodup := by
  intro pairs
  induction pairs with
  | nil => intro m i h; exact h
  | cons pr rest ih =>
    intro m i h
    show ((processPairs gd sourcesData primaryEndpoint requireType nodeVarMap storedEdges
      pathIdx m i (pr :: rest)).map Prod.fst).Nodup
    unfold processPairs
    dsimp only
    split
    · exact ih m (i + 1) h
    · exact ih _ (i + 1) (nodup_addEmissions _ m h)

theorem nodup_processPath (gd : GraphData) (sourcesData : List (String × SourceInfo))
    (primaryEndpoint : String) (requireType : Bool)
    (st : VarAcc × EPMap) (pathIdx : Nat) (pd : PathData)
    (h : ((st.2 : List (String × List (String × List String))).map Prod.fst).Nodup) :
    (((processPath gd sourcesData primaryEndpoint requireType st pathIdx pd).2 :
      List (String × List (String × List String))).map Prod.fst).Nodup := by
  unfold processPath
  by_cases hlen : pd.path.length < 2
  · rw [if_pos hlen]
    exact h
  · rw [if_neg hlen]
    exact nodup_processPairs gd sourcesData primaryEndpoint requireType _ _ pathIdx _ _ 0 h

theorem nodup_buildQueryState (gd : GraphData) (sourcesData : List (String × SourceInfo))
    (primaryEndpoint : String) (requireType : Bool) (allPaths : List PathData) :
    (((buildQueryState gd sourcesData primaryEndpoint requireType allPaths).2 :
      List (String × List (String × List String))).map Prod.fst).Nodup := by
  unfold buildQueryState
  generalize ({ varCounter := [], selectVars := [] } : VarAcc) = acc0
  have h0 : ((([] : EPMap) : List (String × List (String × List String))).map
    Prod.fst).Nodup := by simp
  generalize hst : (acc0, ([] : EPMap)) = st0
  have hstn : ((st0.2 : List (String × List (String × List String))).map Prod.fst).Nodup := by
    rw [← hst]
    exact h0
  clear hst h0
  generalize allPaths.enum = items
  induction items generalizing st0 with
  | nil => exact hstn
  | cons it rest ih =>
    rw [List.foldl_cons]
    exact ih _ (nodup_processPath gd sourcesData primaryEndpoint requireType st0 it.1 it.2 hstn)

/-- The distinct endpoints of the compiled pattern map, in insertion order. -/
def queryEndpoints (gd : GraphData) (sourcesData : List (String × SourceInfo))
    (primaryEndpoint : String) (requireType : Bool) (allPaths : List PathData) :
    List String :=
  ((buildQueryState gd sourcesData primaryEndpoint requireType allPaths).2 :
    List (String × List (String × List String))).map Prod.fst

/-- The `whereLines` the compiler builds when every pattern has an endpoint. -/
def queryWhereLines (gd : GraphData) (sourcesData : List (String × SourceInfo))
    (primaryEndpoint : String) (requireType : Bool) (allPaths : List PathData) :
    List String :=
  (queryEndpoints gd sourcesData primaryEndpoint requireType allPaths).enum.map
    (fun p => renderEndpoint p.1 p.2
      ((alookup ((buildQueryState gd sourcesData primaryEndpoint requireType allPaths).2 :
        List (String × List (String × List String))) p.2).getD []))

/-- The C3 conclusion: overall `SELECT DISTINCT … WHERE { … } LIMIT 100` shape,
each distinct endpoint rendered exactly once, the first bare and every later
one inside one `SERVICE` block. -/
def QueryShapeOk (gd : GraphData) (sourcesData : List (String × SourceInfo))
    (primaryEndpoint : String) (requireType : Bool) (allPaths : List PathData) : Prop :=
  generateSparqlFromPaths gd sourcesData primaryEndpoint requireType allPaths =
    "SELECT DISTINCT " ++
      String.intercalate " "
        ((buildQueryState gd sourcesData primaryEndpoint requireType
          allPaths).1.selectVars.map (fun v => "?" ++ v)) ++
      "\nWHERE \x7b\n" ++
      String.intercalate "\n\n"
        (queryWhereLines gd sourcesData primaryEndpoint requireType allPaths) ++
      "\n\x7d" ++ "\nLIMIT 100" ∧
  (queryEndpoints gd sourcesData primaryEndpoint requireType allPaths).Nodup ∧
  (queryWhereLines gd sourcesData primaryEndpoint requireType allPaths).length =
    (queryEndpoints gd sourcesData primaryEndpoint requireType allPaths).length ∧
  (∀ e0 gm0,
    (queryEndpoints gd sourcesData primaryEndpoint requireType allPaths).get? 0 = some e0 →
    alookup ((buildQueryState gd sourcesData primaryEndpoint requireType allPaths).2 :
      List (String × List (String × List String))) e0 = some gm0 →
    (queryWhereLines gd sourcesData primaryEndpoint requireType allPaths).get? 0 =
      some ("  " ++ String.intercalate "\n    " (renderGraphPatterns gm0))) ∧
  (∀ j e, 0 < j →
    (queryEndpoints gd sourcesData primaryEndpoint requireType allPaths).get? j = some e →
    (queryWhereLines gd sourcesData primaryEndpoint requireType allPaths).get? j =
      some ("  SERVICE <" ++ e ++ "> \x7b\n    " ++
        String.intercalate "\n    "
          (renderGraphPatterns
            ((alookup ((buildQueryState gd sourcesData primaryEndpoint requireType
              allPaths).2 : List (String × List (String × List String))) e).getD [])) ++
        "\n  \x7d"))

/-- C3: for a non-empty set of accumulated paths all of whose patterns carry a
real endpoint, the compiled query has the claimed federated shape. -/
theorem C3_query_shape (gd : GraphData) (sourcesData : List (String × SourceInfo))
    (primaryEndpoint : String) (requireType : Bool) (allPaths : List PathData)
    (hne : allPaths ≠ [])
    (hnoEmpty : "" ∉ queryEndpoints gd sourcesData primaryEndpoint requireType allPaths) :
    QueryShapeOk gd sourcesData primaryEndpoint requireType allPaths := by
  have hfilter :
      (((buildQueryState gd sourcesData primaryEndpoint requireType allPaths).2 :
        List (String × List (String × List String))).map Prod.fst).filter
        (fun e => e ≠ "") =
      ((buildQueryState gd sourcesData primaryEndpoint requireType allPaths).2 :
        List (String × List (String × List String))).map Prod.fst := by
    apply List.filter_eq_self.mpr
    intro e he
    have : e ≠ "" := fun hh => hnoEmpty (hh ▸ he)
    simp [this]
  have hlook : alookup ((buildQueryState gd sourcesData primaryEndpoint requireType
      allPaths).2 : List (String × List (String × List String))) "" = none := by
    rw [alookup_eq_none_iff]
    exact hnoEmpty
  have hne' : allPaths.isEmpty = false := by
    cases allPaths with
    | nil => exact absurd rfl hne
    | cons a l => rfl
  refine ⟨?_, ?_, ?_, ?_, ?_⟩
  · rw [generateSparqlFromPaths, hne']
    rw [if_neg Bool.false_ne_true]
    dsimp only
    rw [hlook, hfilter]
    rw [fallbackLines, List.append_nil]
    rfl
  · exact nodup_buildQueryState gd sourcesData primaryEndpoint requireType allPaths
  · unfold queryWhereLines
    rw [List.length_map, List.enum_length]
  · intro e0 gm0 he0 hgm0
    unfold queryWhereLines
    rw [List.get?_map]
    have henum : (queryEndpoints gd sourcesData primaryEndpoint requireType
        allPaths).enum.get? 0 = some (0, e0) := by
      rw [List.get?_enum, he0]
      rfl
    rw [henum, Option.map_some']
    dsimp only
    rw [renderEndpoint]
    rw [if_neg (by omega : ¬ (0 : Nat) > 0), hgm0]
    rfl
  · intro j e hj he
    unfold queryWhereLines
    rw [List.get?_map]
    have henum : (queryEndpoints gd sourcesData primaryEndpoint requireType
        allPaths).enum.get? j = some (j, e) := by
      rw [List.get?_enum, he]
      rfl
    rw [henum, Option.map_some']
    dsimp only
    rw [renderEndpoint]
    rw [if_pos hj]

/-- A two-endpoint graph: A —p1→ B on dataset ds1, B —p2→ C on dataset ds2. -/
def c3gd : GraphData :=
  { nodes :=
      [ { id := "http://ex/A", label := "A", datasets := ["ds1"], properties := []
        , inDegree := 0, outDegree := 1, degree := 1 }
      , { id := "http://ex/B", label := "B", datasets := ["ds1", "ds2"], properties := []
        , inDegree := 1, outDegree := 1, degree := 2 }
      , { id := "http://ex/C", label := "C", datasets := ["ds2"], properties := []
        , inDegree := 1, outDegree := 0, degree := 1 } ]
  , links :=
      [ { source := "http://ex/A", target := "http://ex/B", property := "http://ex/p1"
        , label := "p1", datasets := ["ds1"] }
      , { source := "http://ex/B", target := "http://ex/C", property := "http://ex/p2"
        , label := "p2", datasets := ["ds2"] } ] }

/-- Two datasets served from two distinct endpoints. -/
def c3sources : List (String × SourceInfo) :=
  [ ("ds1", { endpointUrl := "http://e1/sparql", graphUri := "", useGraph := false })
  , ("ds2", { endpointUrl := "http://e2/sparql", graphUri := "", useGraph := false }) ]

/-- One accumulated path A → B → C crossing both endpoints. -/
def c3paths : List PathData :=
  [ { path := ["http://ex/A", "http://ex/B", "http://ex/C"]
    , edges :=
        [ { source := some "http://ex/A", target := some "http://ex/B"
          , property := "http://ex/p1", datasets := ["ds1"] }
        , { source := some "http://ex/B", target := some "http://ex/C"
          , property := "http://ex/p2", datasets := ["ds2"] } ]
    , fromLabel := "A", toLabel := "C" } ]

set_option maxRecDepth 8192 in
/-- Witness: C3 applied to the concrete two-endpoint scenario. -/
theorem C3_witness :
    (c3paths ≠ [] ∧
      "" ∉ queryEndpoints c3gd c3sources "http://e1/sparql" false c3paths) ∧
    QueryShapeOk c3gd c3sources "http://e1/sparql" false c3paths :=
  ⟨⟨by decide, by decide⟩,
   C3_query_shape c3gd c3sources "http://e1/sparql" false c3paths
     (by decide) (by decide)⟩

/-! ## C5: shortest-path BFS -/

theorem acontains_aset {α : Type} (m : List (String × α)) (k k' : String) (v : α) :
    acontains (aset m k v) k' = (k' == k || acontains m k') := by
  unfold acontains
  rw [alookup_aset]
  by_cases h : k' = k
  · simp [h]
  · simp [h]

theorem acontains_aupdate {α : Type} (m : List (String × α)) (k k' : String)
    (f : α → α) : acontains (aupdate m k f) k' = acontains m k' := by
  unfold acontains
  rw [alookup_aupdate]
  by_cases h : k' = k
  · rw [if_pos h, h]
    cases alookup m k <;> rfl
  · rw [if_neg h]

theorem acontains_true_iff {α : Type} (m : List (String × α)) (k : String) :
    acontains m k = true ↔ k ∈ m.map Prod.fst := by
  constructor
  · intro h
    by_contra hmem
    rw [← acontains_false_iff] at hmem
    rw [h] at hmem
    cases hmem
  · intro h
    cases hc : acontains m k
    · exact absurd h ((acontains_false_iff m k).mp hc)
    · rfl

theorem adjGet_ensure (m : List (String × List String)) (k v : String) :
    adjGet (if acontains m k then m else aset m k []) v = adjGet m v := by
  by_cases hc : acontains m k = true
  · rw [if_pos hc]
  · rw [if_neg hc]
    unfold adjGet
    rw [alookup_aset]
    by_cases hv : v = k
    · subst hv
      have hnone : alookup m v = none := by
        unfold acontains at hc
        cases h : alookup m v
        · rfl
        · rw [h] at hc
          simp at hc
      rw [if_pos rfl, hnone]
      rfl
    · rw [if_neg hv]

theorem acontains_ensure_self (m : List (String × List String)) (k : String) :
    acontains (if acontains m k then m else aset m k []) k = true := by
  by_cases hc : acontains m k = true
  · rw [if_pos hc]
    exact hc
  · rw [if_neg hc, acontains_aset]
    simp

theorem acontains_ensure_mono (m : List (String × List String)) (k k' : String)
    (h : acontains m k' = true) :
    acontains (if acontains m k then m else aset m k []) k' = true := by
  by_cases hc : acontains m k = true
  · rw [if_pos hc]
    exact h
  · rw [if_neg hc, acontains_aset, h]
    simp

theorem adjGet_aupdate (m : List (String × List String)) (k v : String)
    (f : List String → List String) (hk : acontains m k = true) :
    adjGet (aupdate m k f) v = if v = k then f (adjGet m v) else adjGet m v := by
  unfold adjGet
  rw [alookup_aupdate]
  by_cases hv : v = k
  · rw [if_pos hv, if_pos hv, hv]
    unfold acontains at hk
    cases h : alookup m k
    · rw [h] at hk
      simp at hk
    · rfl
  · rw [if_neg hv, if_neg hv]

theorem adjGet_adjStep (adj : List (String × List String)) (l : Link) (v : String) :
    adjGet (adjStep adj l) v =
      adjGet adj v ++ (if v = l.source then [l.target] else []) ++
        (if v = l.target then [l.source] else []) := by
  rw [adjStep]
  generalize hm1 : (if acontains adj l.source then adj else aset adj l.source []) = m1
  generalize hm2 : (if acontains m1 l.target then m1 else aset m1 l.target []) = m2
  have hg2 : ∀ w, adjGet m2 w = adjGet adj w := fun w => by
    rw [← hm2, adjGet_ensure, ← hm1, adjGet_ensure]
  have hcs : acontains m2 l.source = true := by
    rw [← hm2]
    exact acontains_ensure_mono _ _ _ (by rw [← hm1]; exact acontains_ensure_self _ _)
  have hct : acontains m2 l.target = true := by
    rw [← hm2]
    exact acontains_ensure_self _ _
  have hct3 : acontains (aupdate m2 l.source (fun ns => ns ++ [l.target]))
      l.target = true := by
    rw [acontains_aupdate]
    exact hct
  rw [adjGet_aupdate _ _ _ _ hct3, adjGet_aupdate _ _ _ _ hcs, hg2]
  by_cases h1 : v = l.source <;> by_cases h2 : v = l.target
  · simp [← h1, ← h2]
  · simp [← h1, h2]
  · simp [← h2, h1]
  · simp [h1, h2]

theorem mem_adjGet_foldl (links : List Link) :
    ∀ (adj : List (String × List String)) (v n : String),
      n ∈ adjGet (links.foldl adjStep adj) v ↔
        n ∈ adjGet adj v ∨
          ∃ l ∈ links, (v = l.source ∧ n = l.target) ∨ (v = l.target ∧ n = l.source) := by
  induction links with
  | nil =>
    intro adj v n
    simp
  | cons l rest ih =>
    intro adj v n
    rw [List.foldl_cons, ih, adjGet_adjStep, List.exists_mem_cons_iff]
    by_cases h1 : v = l.source <;> by_cases h2 : v = l.target <;>
      simp [h1, h2] <;> aesop

theorem mem_adjGet_buildAdjacency (links : List Link) (v n : String) :
    n ∈ adjGet (buildAdjacency links) v ↔ linkedUndir links v n := by
  unfold buildAdjacency linkedUndir
  rw [mem_adjGet_foldl]
  simp [adjGet, alookup]

theorem mem_keys_adjStep (adj : List (String × List String)) (l : Link) (k : String)
    (h : acontains adj k = true) : acontains (adjStep adj l) k = true := by
  rw [adjStep]
  rw [acontains_aupdate, acontains_aupdate]
  exact acontains_ensure_mono _ _ _ (acontains_ensure_mono _ _ _ h)

theorem source_keys_adjStep (adj : List (String × List String)) (l : Link) :
    acontains (adjStep adj l) l.source = true := by
  rw [adjStep]
  rw [acontains_aupdate, acontains_aupdate]
  exact acontains_ensure_mono _ _ _ (acontains_ensure_self _ _)

theorem target_keys_adjStep (adj : List (String × List String)) (l : Link) :
    acontains (adjStep adj l) l.target = true := by
  rw [adjStep]
  rw [acontains_aupdate, acontains_aupdate]
  exact acontains_ensure_self _ _

theorem keys_foldl_mono (links : List Link) :
    ∀ (adj : List (String × List String)) (k : String), acontains adj k = true →
      acontains (links.foldl adjStep adj) k = true := by
  induction links with
  | nil =>
    intro adj k h
    exact h
  | cons l rest ih =>
    intro adj k h
    rw [List.foldl_cons]
    exact ih _ _ (mem_keys_adjStep _ _ _ h)

theorem endpoints_keys_foldl (links : List Link) :
    ∀ (adj : List (String × List String)), ∀ l ∈ links,
      acontains (links.foldl adjStep adj) l.source = true ∧
      acontains (links.foldl adjStep adj) l.target = true := by
  induction links with
  | nil =>
    intro adj l hl
    cases hl
  | cons l0 rest ih =>
    intro adj l hl
    rw [List.foldl_cons]
    rcases List.mem_cons.mp hl with rfl | hl'
    · exact ⟨keys_foldl_mono rest _ _ (source_keys_adjStep adj l),
        keys_foldl_mono rest _ _ (target_keys_adjStep adj l)⟩
    · exact ih _ l hl'

theorem adjClosed_buildAdjacency (links : List Link) (v n : String)
    (h : n ∈ adjGet (buildAdjacency links) v) :
    n ∈ (buildAdjacency links).map Prod.fst := by
  rw [mem_adjGet_buildAdjacency] at h
  obtain ⟨l, hl, hcase⟩ := h
  have hl2 := endpoints_keys_foldl links [] l hl
  rw [← acontains_true_iff]
  show acontains (links.foldl adjStep []) n = true
  rcases hcase with ⟨hv, hn⟩ | ⟨hv, hn⟩
  · rw [hn]
    exact hl2.2
  · rw [hn]
    exact hl2.1

theorem VPath_ne_nil {adj : List (String × List String)} {startId : String}
    {p : List String} (h : VPath adj startId p) : p ≠ [] := by
  intro hnil
  rw [hnil] at h
  exact Option.noConfusion h.1

theorem VPath_append {adj : List (String × List String)} {startId : String}
    {p : List String} (h : VPath adj startId p) {v n : String}
    (hlast : p.getLast? = some v) (hn : n ∈ adjGet adj v) :
    VPath adj startId (p ++ [n]) := by
  refine ⟨?_, ?_⟩
  · rw [head?_append_singleton (VPath_ne_nil h)]
    exact h.1
  · rw [List.chain'_append]
    refine ⟨h.2, List.chain'_singleton n, ?_⟩
    intro x hx y hy
    rw [hlast, Option.mem_def, Option.some.injEq] at hx
    subst hx
    simp only [List.head?_cons, Option.mem_def, Option.some.injEq] at hy
    subst hy
    exact hn

theorem VPath_take {adj : List (String × List String)} {startId : String}
    {p : List String} (h : VPath adj startId p) (i : Nat) (hi : 1 ≤ i) :
    VPath adj startId (p.take i) := by
  refine ⟨?_, h.2.take i⟩
  cases p with
  | nil => exact Option.noConfusion h.1
  | cons a rest =>
    cases i with
    | zero => omega
    | succ i =>
      rw [List.take_succ_cons]
      exact h.1

theorem getLast?_take_succ (l : List String) (i : Nat) (x : String)
    (h : l.get? i = some x) : (l.take (i + 1)).getLast? = some x := by
  induction l generalizing i with
  | nil => simp at h
  | cons a rest ih =>
    cases i with
    | zero =>
      simp at h
      subst h
      rfl
    | succ i =>
      rw [List.get?_cons_succ] at h
      rw [List.take_succ_cons]
      have hr := ih i h
      rw [List.getLast?_cons]
      cases rest with
      | nil => simp at h
      | cons b r =>
        simp only [List.take] at hr ⊢
        rw [← hr]
        simp [List.getLast?_cons]

theorem chain'_get? {R : String → String → Prop} {l : List String}
    (h : List.Chain' R l) {j : Nat} {a b : String}
    (ha : l.get? j = some a) (hb : l.get? (j + 1) = some b) : R a b := by
  rw [List.chain'_iff_get] at h
  rw [List.get?_eq_some] at ha hb
  obtain ⟨h1, rfl⟩ := ha
  obtain ⟨h2, rfl⟩ := hb
  exact h j (by omega)

theorem pairwise_le_map_const {α : Type} (xs : List α) (c : Nat) :
    (xs.map (fun _ => c)).Pairwise (· ≤ ·) := by
  induction xs with
  | nil => simp
  | cons a rest ih =>
    rw [List.map_cons, List.pairwise_cons]
    refine ⟨fun y hy => ?_, ih⟩
    rw [List.mem_map] at hy
    obtain ⟨z, hz, hzc⟩ := hy
    omega

theorem sumDeg_mono (adj : List (String × List String)) (node : String)
    (visited : List String) :
    ∀ u : List String,
      ((u.filter (fun v => decide (v ∉ node :: visited))).map
        (fun v => (adjGet adj v).length)).sum ≤
      ((u.filter (fun v => decide (v ∉ visited))).map
        (fun v => (adjGet adj v).length)).sum := by
  intro u
  induction u with
  | nil => simp
  | cons a u' ih =>
    rw [List.filter_cons, List.filter_cons]
    by_cases h1 : a ∉ node :: visited
    · have h2 : a ∉ visited := fun hh => h1 (List.mem_cons_of_mem _ hh)
      rw [decide_eq_true h1, decide_eq_true h2, if_pos rfl, if_pos rfl,
        List.map_cons, List.map_cons, List.sum_cons, List.sum_cons]
      omega
    · by_cases h2 : a ∉ visited
      · rw [decide_eq_false h1, decide_eq_true h2, if_neg (by simp), if_pos rfl,
          List.map_cons, List.sum_cons]
        omega
      · rw [decide_eq_false h1, decide_eq_false h2, if_neg (by simp),
          if_neg (by simp)]
        exact ih

theorem sumDeg_drop (adj : List (String × List String)) (node : String)
    (visited : List String) :
    ∀ u : List String, node ∈ u → node ∉ visited →
      ((u.filter (fun v => decide (v ∉ node :: visited))).map
        (fun v => (adjGet adj v).length)).sum + (adjGet adj node).length ≤
      ((u.filter (fun v => decide (v ∉ visited))).map
        (fun v => (adjGet adj v).length)).sum := by
  intro u
  induction u with
  | nil =>
    intro h
    cases h
  | cons a u' ih =>
    intro hmem hnv
    rw [List.filter_cons, List.filter_cons]
    rcases List.mem_cons.mp hmem with rfl | hmem'
    · have h1 : ¬ node ∉ node :: visited :=
        fun hh => hh (List.mem_cons_self node visited)
      rw [decide_eq_false h1, decide_eq_true hnv, if_neg (by simp), if_pos rfl,
        List.map_cons, List.sum_cons]
      have hm := sumDeg_mono adj node visited u'
      omega
    · by_cases h1 : a ∉ node :: visited
      · have h2 : a ∉ visited := fun hh => h1 (List.mem_cons_of_mem _ hh)
        rw [decide_eq_true h1, decide_eq_true h2, if_pos rfl, if_pos rfl,
          List.map_cons, List.map_cons, List.sum_cons, List.sum_cons]
        have hih := ih hmem' hnv
        omega
      · by_cases h2 : a ∉ visited
        · rw [decide_eq_false h1, decide_eq_true h2, if_neg (by simp), if_pos rfl,
            List.map_cons, List.sum_cons]
          have hih := ih hmem' hnv
          omega
        · rw [decide_eq_false h1, decide_eq_false h2, if_neg (by simp),
            if_neg (by simp)]
          exact ih hmem' hnv

theorem unvisitedDeg_drop (adj : List (String × List String))
    (startId node : String) (visited : List String)
    (hmem : node ∈ adjUniverse adj startId) (hnv : node ∉ visited) :
    unvisitedDeg adj startId (node :: visited) + (adjGet adj node).length ≤
      unvisitedDeg adj startId visited := by
  unfold unvisitedDeg
  exact sumDeg_drop adj node visited (adjUniverse adj startId) hmem hnv

theorem head_le_of_unvisited_end {adj : List (String × List String)}
    {startId endId : String} {fuel : Nat} {visited : List String}
    {p0 : List String} {rest : List (List String)}
    (hinv : BfsInv adj startId endId fuel visited (p0 :: rest)) :
    ∀ q u, VPath adj startId q → q.getLast? = some u → u ∉ visited →
      p0.length ≤ q.length := by
  intro q u hq hlastq hu
  obtain ⟨i, hilen, hpre, w, hw, hwnv, p', hp', hplast, hplen⟩ :=
    hinv.fup q hq u hlastq hu
  have hsorted := hinv.sorted
  rw [List.map_cons, List.pairwise_cons] at hsorted
  have hle : p0.length ≤ p'.length := by
    rcases List.mem_cons.mp hp' with rfl | hmem
    · exact Nat.le_refl _
    · exact hsorted.1 p'.length (List.mem_map_of_mem _ hmem)
  omega

theorem bfsInv_skip {adj : List (String × List String)}
    {startId endId : String} {fuel : Nat} {visited : List String}
    {p0 : List String} {rest : List (List String)}
    (hinv : BfsInv adj startId endId (fuel + 1) visited (p0 :: rest))
    {node : String} (hlast : p0.getLast? = some node) (hvis : node ∈ visited) :
    BfsInv adj startId endId fuel visited rest := by
  have hsorted := hinv.sorted
  rw [List.map_cons, List.pairwise_cons] at hsorted
  refine ⟨?_, hsorted.2, ?_, hinv.endNotVis, ?_, ?_, ?_, ?_⟩
  · intro p hp
    exact hinv.qok p (List.mem_cons_of_mem _ hp)
  · intro p hp h hh
    have h1 := hinv.twoLevel p (List.mem_cons_of_mem _ hp) p0 rfl
    have h2 : p0.length ≤ h.length :=
      hsorted.1 h.length (List.mem_map_of_mem _ (List.mem_of_mem_head? hh))
    omega
  · intro v hv n hn
    rcases hinv.close v hv n hn with hvis' | ⟨p, hp, hplast, hbound⟩
    · exact Or.inl hvis'
    · rcases List.mem_cons.mp hp with rfl | hmem
      · rw [hlast] at hplast
        exact Or.inl ((Option.some.inj hplast) ▸ hvis)
      · exact Or.inr ⟨p, hmem, hplast, hbound⟩
  · intro q hq u hlastq hunv
    obtain ⟨i, hilen, hpre, w, hw, hwnv, p, hp, hplast, hplen⟩ :=
      hinv.fup q hq u hlastq hunv
    rcases List.mem_cons.mp hp with rfl | hmem
    · rw [hlast] at hplast
      exact absurd ((Option.some.inj hplast) ▸ hvis) hwnv
    · exact ⟨i, hilen, hpre, w, hw, hwnv, p, hmem, hplast, hplen⟩
  · intro p hp v hv
    exact hinv.lasts p (List.mem_cons_of_mem _ hp) v hv
  · have hfo := hinv.fuelOk
    simp only [List.length_cons] at hfo
    omega

theorem bfsInv_init (adj : List (String × List String)) (startId endId : String) :
    BfsInv adj startId endId (bfsFuel adj startId) [] [[startId]] := by
  refine ⟨?_, ?_, ?_, List.not_mem_nil endId, ?_, ?_, ?_, ?_⟩
  · intro p hp
    rw [List.mem_singleton] at hp
    subst hp
    exact ⟨rfl, List.chain'_singleton _⟩
  · simp
  · intro p hp h hh
    rw [List.mem_singleton] at hp
    subst hp
    have hh2 : [startId] = h := by simpa using hh
    rw [← hh2]
    omega
  · intro v hv
    cases hv
  · intro q hq u hlastq hu
    refine ⟨0, ?_, ?_, ?_⟩
    · have hne := VPath_ne_nil hq
      cases q with
      | nil => exact absurd rfl hne
      | cons a r => simp
    · intro j hj
      omega
    · refine ⟨startId, ?_, List.not_mem_nil _, [startId],
        List.mem_singleton.mpr rfl, rfl, ?_⟩
      · rw [List.get?_zero]
        exact hq.1
      · simp
  · intro p hp v hv
    rw [List.mem_singleton] at hp
    subst hp
    have hv2 : v = startId := by
      simp only [List.getLast?_singleton] at hv
      exact (Option.some.inj hv).symm
    subst hv2
    exact List.mem_cons_self _ _
  · unfold bfsFuel unvisitedDeg adjUniverse
    rw [List.filter_eq_self.mpr (fun a _ => by simp)]
    simp only [List.length_singleton]
    omega

theorem bfsInv_visit {adj : List (String × List String)}
    {startId endId : String} {fuel : Nat} {visited : List String}
    {p0 : List String} {rest : List (List String)}
    (hclosed : ∀ v n, n ∈ adjGet adj v → n ∈ adj.map Prod.fst)
    (hinv : BfsInv adj startId endId (fuel + 1) visited (p0 :: rest))
    {node : String} (hlast : p0.getLast? = some node)
    (hend : node ≠ endId) (hvis : node ∉ visited) :
    BfsInv adj startId endId fuel (node :: visited)
      (rest ++ ((adjGet adj node).filter
        (fun n => ¬ (node :: visited).contains n)).map (fun n => p0 ++ [n])) := by
  have hq0 := hinv.qok p0 (List.mem_cons_self _ _)
  have hsorted := hinv.sorted
  rw [List.map_cons, List.pairwise_cons] at hsorted
  have htight := head_le_of_unvisited_end hinv
  generalize hpushes : ((adjGet adj node).filter
    (fun n => ¬ (node :: visited).contains n)).map (fun n => p0 ++ [n]) = pushes
  have hmem_push : ∀ pq, pq ∈ pushes ↔
      ∃ n, n ∈ adjGet adj node ∧ n ∉ node :: visited ∧ pq = p0 ++ [n] := by
    intro pq
    rw [← hpushes]
    constructor
    · intro h
      rw [List.mem_map] at h
      obtain ⟨n, hn, rfl⟩ := h
      rw [List.mem_filter] at hn
      refine ⟨n, hn.1, ?_, rfl⟩
      simpa using hn.2
    · rintro ⟨n, hn1, hn2, rfl⟩
      rw [List.mem_map]
      refine ⟨n, ?_, rfl⟩
      rw [List.mem_filter]
      exact ⟨hn1, by simpa using hn2⟩
  have hlen_push : ∀ pq ∈ pushes, pq.length = p0.length + 1 := by
    intro pq hpq
    obtain ⟨n, _, _, rfl⟩ := (hmem_push pq).mp hpq
    rw [List.length_append]
    rfl
  have hlow : ∀ e ∈ rest ++ pushes, p0.length ≤ e.length := by
    intro e he
    rcases List.mem_append.mp he with hr | hpu
    · exact hsorted.1 e.length (List.mem_map_of_mem _ hr)
    · rw [hlen_push e hpu]
      omega
  have hhigh : ∀ e ∈ rest ++ pushes, e.length ≤ p0.length + 1 := by
    intro e he
    rcases List.mem_append.mp he with hr | hpu
    · exact hinv.twoLevel e (List.mem_cons_of_mem _ hr) p0 rfl
    · rw [hlen_push e hpu]
  refine ⟨?_, ?_, ?_, ?_, ?_, ?_, ?_, ?_⟩
  · -- qok
    intro p hp
    rcases List.mem_append.mp hp with hr | hpu
    · exact hinv.qok p (List.mem_cons_of_mem _ hr)
    · obtain ⟨n, hn, _, rfl⟩ := (hmem_push p).mp hpu
      exact VPath_append hq0 hlast hn
  · -- sorted
    rw [List.map_append, List.pairwise_append]
    refine ⟨hsorted.2, ?_, ?_⟩
    · have hconst : List.map List.length pushes =
          List.map (fun _ => p0.length + 1)
            ((adjGet adj node).filter (fun n => ¬ (node :: visited).contains n)) := by
        rw [← hpushes, List.map_map]
        apply List.map_congr_left
        intro n hn
        simp [Function.comp, List.length_append]
      rw [hconst]
      exact pairwise_le_map_const _ _
    · intro x hx y hy
      rw [List.mem_map] at hx hy
      obtain ⟨px, hpx, rfl⟩ := hx
      obtain ⟨py, hpy, rfl⟩ := hy
      have h1 := hinv.twoLevel px (List.mem_cons_of_mem _ hpx) p0 rfl
      have h2 := hlen_push py hpy
      omega
  · -- twoLevel
    intro p hp h hh
    have h1 := hhigh p hp
    have h2 := hlow h (List.mem_of_mem_head? hh)
    omega
  · -- endNotVis
    intro hmem
    rcases List.mem_cons.mp hmem with heq | hmem'
    · exact hend heq.symm
    · exact hinv.endNotVis hmem'
  · -- close
    intro v hv n hn
    rcases List.mem_cons.mp hv with rfl | hv'
    · by_cases hnv : n ∈ v :: visited
      · exact Or.inl hnv
      · refine Or.inr ⟨p0 ++ [n],
          List.mem_append_right _ ((hmem_push _).mpr ⟨n, hn, hnv, rfl⟩),
          List.getLast?_concat _, ?_⟩
        rintro d ⟨q, hq, hqlast, rfl⟩
        have := htight q v hq hqlast hvis
        rw [List.length_append]
        simp only [List.length_singleton]
        omega
    · rcases hinv.close v hv' n hn with hmem | ⟨p, hp, hplast, hbound⟩
      · exact Or.inl (List.mem_cons_of_mem _ hmem)
      · rcases List.mem_cons.mp hp with rfl | hpm
        · rw [hlast] at hplast
          exact Or.inl (List.mem_cons.mpr
            (Or.inl (Option.some.inj hplast).symm))
        · exact Or.inr ⟨p, List.mem_append_left _ hpm, hplast, hbound⟩
  · -- fup
    intro q hq u hlastq hu'
    have hu : u ∉ visited := fun hh => hu' (List.mem_cons_of_mem _ hh)
    obtain ⟨i, hilen, hpre, w, hw, hwnv, p, hp, hplast, hplen⟩ :=
      hinv.fup q hq u hlastq hu
    by_cases hwnode : w = node
    · -- the covered vertex is the one being visited: re-cover
      subst hwnode
      classical
      have hqne := VPath_ne_nil hq
      have hqpos : 1 ≤ q.length := List.length_pos.mpr hqne
      have hPex : ∃ j, ∃ x, q.get? j = some x ∧ x ∉ w :: visited := by
        refine ⟨q.length - 1, u, ?_, hu'⟩
        rw [← List.getLast?_eq_get?]
        exact hlastq
      have hspec := Nat.find_spec hPex
      obtain ⟨w2, hw2, hw2nv⟩ := hspec
      have hmin : ∀ j, j < Nat.find hPex → ∀ x, q.get? j = some x →
          x ∈ w :: visited := by
        intro j hj x hx
        by_contra hxnv
        exact absurd ⟨x, hx, hxnv⟩ (Nat.find_min hPex hj)
      have hi2len : Nat.find hPex < q.length := by
        have h1 : Nat.find hPex ≤ q.length - 1 :=
          Nat.find_min' hPex ⟨u, by rw [← List.getLast?_eq_get?]; exact hlastq, hu'⟩
        omega
      have hgt : i < Nat.find hPex := by
        by_contra hle
        push_neg at hle
        rcases Nat.lt_or_ge (Nat.find hPex) i with hlt | hge
        · exact hw2nv (List.mem_cons_of_mem _ (hpre _ hlt w2 hw2))
        · have heq : Nat.find hPex = i := by omega
          rw [heq, hw] at hw2
          exact hw2nv ((Option.some.inj hw2) ▸ List.mem_cons_self w visited)
      have hxex : ∃ x, q.get? (Nat.find hPex - 1) = some x := by
        cases hxc : q.get? (Nat.find hPex - 1) with
        | none =>
          rw [List.get?_eq_none] at hxc
          omega
        | some x => exact ⟨x, rfl⟩
      obtain ⟨x, hxget⟩ := hxex
      have hxvis : x ∈ w :: visited := hmin _ (by omega) x hxget
      have hadj_x : w2 ∈ adjGet adj x := by
        have h1 : Nat.find hPex - 1 + 1 = Nat.find hPex := by omega
        exact chain'_get? hq.2 hxget (by rw [h1]; exact hw2)
      rcases List.mem_cons.mp hxvis with rfl | hxold
      · -- predecessor is the visited vertex itself: a fresh push covers
        refine ⟨Nat.find hPex, hi2len, hmin, w2, hw2, hw2nv, p0 ++ [w2],
          List.mem_append_right _ ((hmem_push _).mpr ⟨w2, hadj_x, hw2nv, rfl⟩),
          List.getLast?_concat _, ?_⟩
        have hle2 : p0.length ≤ p.length := by
          rcases List.mem_cons.mp hp with rfl | hpm
          · exact Nat.le_refl _
          · exact hsorted.1 _ (List.mem_map_of_mem _ hpm)
        rw [List.length_append]
        simp only [List.length_singleton]
        omega
      · -- predecessor already visited: the closure invariant covers
        rcases hinv.close x hxold w2 hadj_x with hmem2 | ⟨p2, hp2, hp2last, hbound⟩
        · exact absurd (List.mem_cons_of_mem _ hmem2) hw2nv
        · refine ⟨Nat.find hPex, hi2len, hmin, w2, hw2, hw2nv, p2, ?_, hp2last, ?_⟩
          · rcases List.mem_cons.mp hp2 with rfl | hp2m
            · rw [hlast] at hp2last
              exact absurd (List.mem_cons.mpr
                (Or.inl (Option.some.inj hp2last).symm)) hw2nv
            · exact List.mem_append_left _ hp2m
          · apply hbound
            refine ⟨q.take (Nat.find hPex), VPath_take hq _ (by omega), ?_, ?_⟩
            · have h1 : Nat.find hPex - 1 + 1 = Nat.find hPex := by omega
              rw [← h1]
              exact getLast?_take_succ q _ x hxget
            · rw [List.length_take]
              omega
    · -- the old cover survives untouched
      refine ⟨i, hilen, ?_, w, hw, ?_, p, ?_, hplast, hplen⟩
      · intro j hj x hx
        exact List.mem_cons_of_mem _ (hpre j hj x hx)
      · intro hmem
        rcases List.mem_cons.mp hmem with heq | hmem'
        · exact hwnode heq
        · exact hwnv hmem'
      · rcases List.mem_cons.mp hp with rfl | hpm
        · rw [hlast] at hplast
          exact absurd (Option.some.inj hplast).symm hwnode
        · exact List.mem_append_left _ hpm
  · -- lasts
    intro p hp v hv
    rcases List.mem_append.mp hp with hr | hpu
    · exact hinv.lasts p (List.mem_cons_of_mem _ hr) v hv
    · obtain ⟨n, hn, _, rfl⟩ := (hmem_push p).mp hpu
      rw [List.getLast?_concat] at hv
      exact List.mem_cons_of_mem _
        ((Option.some.inj hv) ▸ hclosed node n hn)
  · -- fuelOk
    have hfo := hinv.fuelOk
    simp only [List.length_cons] at hfo
    have hpl : pushes.length ≤ (adjGet adj node).length := by
      rw [← hpushes, List.length_map]
      exact List.length_filter_le _ _
    have hnodeU : node ∈ adjUniverse adj startId :=
      hinv.lasts p0 (List.mem_cons_self _ _) node hlast
    have hdrop := unvisitedDeg_drop adj startId node visited hnodeU hvis
    rw [List.length_append]
    omega

theorem bfsAux_spec (adj : List (String × List String)) (startId endId : String)
    (hclosed : ∀ v n, n ∈ adjGet adj v → n ∈ adj.map Prod.fst) :
    ∀ fuel (visited : List String) (queue : List (List String)),
      BfsInv adj startId endId fuel visited queue →
      (∀ p, bfsAux adj endId fuel visited queue = some p →
        VPath adj startId p ∧ p.getLast? = some endId ∧
          ∀ q, VPath adj startId q → q.getLast? = some endId →
            p.length ≤ q.length) ∧
      (bfsAux adj endId fuel visited queue = none →
        ¬ ∃ q, VPath adj startId q ∧ q.getLast? = some endId) := by
  intro fuel
  induction fuel with
  | zero =>
    intro visited queue hinv
    have hfo := hinv.fuelOk
    omega
  | succ fuel ih =>
    intro visited queue hinv
    cases queue with
    | nil =>
      constructor
      · intro p hp
        simp only [bfsAux] at hp
        exact Option.noConfusion hp
      · intro _ hex
        obtain ⟨q, hq, hqlast⟩ := hex
        obtain ⟨i, _, _, w, _, _, p, hp, _, _⟩ :=
          hinv.fup q hq endId hqlast hinv.endNotVis
        cases hp
    | cons p0 rest =>
      have hq0 := hinv.qok p0 (List.mem_cons_self _ _)
      cases hlastc : p0.getLast? with
      | none =>
        exact absurd (List.getLast?_eq_none_iff.mp hlastc) (VPath_ne_nil hq0)
      | some node =>
        by_cases hend : node = endId
        · subst hend
          have hret : bfsAux adj node (fuel + 1) visited (p0 :: rest) = some p0 := by
            simp [bfsAux, hlastc]
          constructor
          · intro p hp
            rw [hret] at hp
            obtain rfl : p0 = p := Option.some.inj hp
            refine ⟨hq0, hlastc, ?_⟩
            intro q hq hqlast
            exact head_le_of_unvisited_end hinv q node hq hqlast hinv.endNotVis
          · intro hnone
            rw [hret] at hnone
            exact Option.noConfusion hnone
        · by_cases hvisc : visited.contains node = true
          · have hvism : node ∈ visited := by simpa using hvisc
            have hstep : bfsAux adj endId (fuel + 1) visited (p0 :: rest) =
                bfsAux adj endId fuel visited rest := by
              simp only [bfsAux, hlastc]
              rw [if_neg hend, if_pos hvisc]
            rw [hstep]
            exact ih visited rest (bfsInv_skip hinv hlastc hvism)
          · have hvism : node ∉ visited := by simpa using hvisc
            have hstep : bfsAux adj endId (fuel + 1) visited (p0 :: rest) =
                bfsAux adj endId fuel (node :: visited)
                  (rest ++ ((adjGet adj node).filter
                    (fun n => ¬ (node :: visited).contains n)).map
                    (fun n => p0 ++ [n])) := by
              simp only [bfsAux, hlastc]
              rw [if_neg hend, if_neg hvisc]
            rw [hstep]
            exact ih _ _ (bfsInv_visit hclosed hinv hlastc hend hvism)

/-- C5: `findPath` returns an undirected path from `startId` to `endId` of
minimal length among all such paths, and returns `none` exactly when no
undirected path joins the two nodes. -/
theorem C5_bfs_shortest (links : List Link) (startId endId : String)
    (hne : startId ≠ endId) :
    (∀ p, findPath links startId endId = some p →
      (p.head? = some startId ∧ p.getLast? = some endId ∧
        p.Chain' (linkedUndir links)) ∧
      ∀ q : List String, q.head? = some startId → q.getLast? = some endId →
        q.Chain' (linkedUndir links) → p.length ≤ q.length) ∧
    (findPath links startId endId = none ↔
      ¬ ∃ q : List String, q.head? = some startId ∧ q.getLast? = some endId ∧
        q.Chain' (linkedUndir links)) := by
  have hA := mem_adjGet_buildAdjacency links
  have hchain : ∀ q : List String,
      q.Chain' (fun a b => b ∈ adjGet (buildAdjacency links) a) ↔
        q.Chain' (linkedUndir links) := by
    intro q
    constructor
    · intro h
      exact h.imp (fun a b hab => (hA a b).mp hab)
    · intro h
      exact h.imp (fun a b hab => (hA a b).mpr hab)
  have hspec := bfsAux_spec (buildAdjacency links) startId endId
    (adjClosed_buildAdjacency links) (bfsFuel (buildAdjacency links) startId)
    [] [[startId]] (bfsInv_init (buildAdjacency links) startId endId)
  have hfp : findPath links startId endId =
      bfsAux (buildAdjacency links) endId
        (bfsFuel (buildAdjacency links) startId) [] [[startId]] := rfl
  constructor
  · intro p hp
    rw [hfp] at hp
    obtain ⟨⟨hh, hc⟩, hl, hmin⟩ := hspec.1 p hp
    refine ⟨⟨hh, hl, (hchain p).mp hc⟩, ?_⟩
    intro q hqh hql hqc
    exact hmin q ⟨hqh, (hchain q).mpr hqc⟩ hql
  · constructor
    · intro hnone hex
      rw [hfp] at hnone
      obtain ⟨q, hqh, hql, hqc⟩ := hex
      exact hspec.2 hnone ⟨q, ⟨hqh, (hchain q).mpr hqc⟩, hql⟩
    · intro hnex
      rw [hfp]
      cases hres : bfsAux (buildAdjacency links) endId
          (bfsFuel (buildAdjacency links) startId) [] [[startId]] with
      | none => rfl
      | some p =>
        obtain ⟨⟨hh, hc⟩, hl, _⟩ := hspec.1 p hres
        exact absurd ⟨p, hh, hl, (hchain p).mp hc⟩ hnex

instance instDecidableLinkedUndir (links : List Link) (a b : String) :
    Decidable (linkedUndir links a b) :=
  decidable_of_iff
    (∃ l ∈ links, (a = l.source ∧ b = l.target) ∨ (a = l.target ∧ b = l.source))
    Iff.rfl

/-- A graph with a short route A–B–C (the B–C edge stored reversed) and a long
route A–D–E–C. -/
def c5links : List Link :=
  [ { source := "A", target := "B", property := "p1", label := "p1", datasets := [] }
  , { source := "C", target := "B", property := "p2", label := "p2", datasets := [] }
  , { source := "A", target := "D", property := "p3", label := "p3", datasets := [] }
  , { source := "D", target := "E", property := "p4", label := "p4", datasets := [] }
  , { source := "E", target := "C", property := "p5", label := "p5", datasets := [] } ]

set_option maxRecDepth 8192 in
/-- Witness: C5 applied to the concrete two-route graph. -/
theorem C5_witness :
    ("A" : String) ≠ "C" ∧
    findPath c5links "A" "C" = some ["A", "B", "C"] ∧
    ((["A", "B", "C"] : List String).head? = some "A" ∧
      (["A", "B", "C"] : List String).getLast? = some "C" ∧
      List.Chain' (linkedUndir c5links) ["A", "B", "C"]) ∧
    (["A", "B", "C"] : List String).length ≤
      (["A", "D", "E", "C"] : List String).length := by
  have hlong : List.Chain' (linkedUndir c5links) ["A", "D", "E", "C"] := by
    rw [List.chain'_cons, List.chain'_cons, List.chain'_cons]
    refine ⟨?_, ?_, ?_, List.chain'_singleton _⟩ <;>
      exact (by unfold linkedUndir; decide)
  refine ⟨by decide, by decide, ?_, ?_⟩
  · exact ((C5_bfs_shortest c5links "A" "C" (by decide)).1 ["A", "B", "C"]
      (by decide)).1
  · exact ((C5_bfs_shortest c5links "A" "C" (by decide)).1 ["A", "B", "C"]
      (by decide)).2 ["A", "D", "E", "C"] (by decide) (by decide) hlong

end RdfSolve
